import Mathlib

/-! # Verification development for the robot-arm driver (package `robot`)

Shallow embedding of `protocol.go`, `position.go` and the option setters of
`robot.go`, followed by the theorems that settle the specification's claims.

Conventions of the embedding

* A Go `string` is a finite sequence of bytes: `GoString := List Nat`.
  String literals of the source are brought in with `lit`, which encodes a
  Lean string in UTF-8 exactly as the Go compiler does for a source literal.
* A Go `int` is a 64-bit signed integer, embedded as `Int`; the only place
  where the width matters is `strconv.Atoi`, which rejects values outside
  `[-2^63, 2^63 - 1]`.
* A method with a pointer receiver that mutates the receiver and returns an
  `error` becomes a function returning the new receiver paired with
  `Option GoError` (`none` is Go's `nil`).
-/

namespace Robot

/-! ## Go strings -/

/-- A Go string: an immutable sequence of bytes. -/
abbrev GoString := List Nat

/-- UTF-8 encoding of one code point (what the Go compiler stores for a rune
of a string literal). -/
def encodeRune (c : Nat) : List Nat :=
  if c < 0x80 then [c]
  else if c < 0x800 then [0xC0 + c / 64, 0x80 + c % 64]
  else if c < 0x10000 then [0xE0 + c / 4096, 0x80 + c / 64 % 64, 0x80 + c % 64]
  else [0xF0 + c / 262144, 0x80 + c / 4096 % 64, 0x80 + c / 64 % 64, 0x80 + c % 64]

/-- The bytes of a Go string literal. -/
def lit (s : String) : GoString :=
  s.toList.flatMap (fun c => encodeRune c.toNat)

/-- Go `strings.Index(s, sep)`: position of the first occurrence of `sep` in
`s`, `none` for Go's `-1`. -/
def stringsIndex (sep : GoString) : GoString → Option Nat
  | [] => if sep.isEmpty then some 0 else none
  | c :: rest =>
    if sep.isPrefixOf (c :: rest) then some 0
    else (stringsIndex sep rest).map (· + 1)

/-- The loop of Go `strings.genSplit` for a non-empty separator and
`sepSave = 0`: cut at the first occurrence of `sep`, continue behind it, and
emit the remainder as last element. `n` bounds the number of cuts. -/
def genSplit (sep : GoString) : Nat → GoString → List GoString
  | 0, s => [s]
  | n + 1, s =>
    match stringsIndex sep s with
    | none => [s]
    | some m => s.take m :: genSplit sep n (s.drop (m + sep.length))

/-- Go `strings.Split(s, sep)` for a non-empty `sep`. Go bounds the loop by
`Count(s, sep)`; every cut consumes at least one byte of `s`, so `s.length`
cuts are never exhausted before `Index` fails. -/
def stringsSplit (s sep : GoString) : List GoString :=
  genSplit sep s.length s

/-! ## strconv.Atoi -/

/-- Byte is an ASCII decimal digit. -/
def isDigit (c : Nat) : Bool := 48 ≤ c && c ≤ 57

/-- Value of a sequence of ASCII decimal digits. -/
def decimalValue (ds : List Nat) : Nat :=
  ds.foldl (fun n c => n * 10 + (c - 48)) 0

/-- Go `strconv.Atoi` on a 64-bit platform: an optional sign, then one or
more decimal digits, the value within the range of `int`. `none` stands for a
non-nil error (`ErrSyntax` or `ErrRange`); the caller discards which. -/
def Atoi (s : GoString) : Option Int :=
  let neg := s.head? == some 45
  let body := if s.head? == some 45 || s.head? == some 43 then s.tail else s
  if body.isEmpty || !body.all isDigit then none
  else
    let n := decimalValue body
    if neg then (if n ≤ 2 ^ 63 then some (-(n : Int)) else none)
    else (if n < 2 ^ 63 then some (n : Int) else none)

/-! ## Errors -/

/-- Kind of a `strconv.NumError`. -/
inductive NumErrKind
  | ErrSyntax
  | ErrRange
  deriving DecidableEq, Repr

/-- The Go `error` values this package produces or forwards. -/
inductive GoError
  /-- Value of `errors.New(msg)`. -/
  | errorString (msg : GoString)
  /-- Value of `*strconv.NumError` with `Func`, `Num` and `Err`. -/
  | numError (func num : GoString) (kind : NumErrKind)
  deriving DecidableEq, Repr

/-! ## protocol.go -/

/-- Go `type Command struct { Id, Type, Len int; Message string }`
(`Typ` is the field `Type`). -/
structure Command where
  Id : Int
  Typ : Int
  Len : Int
  Message : GoString
  deriving DecidableEq, Repr

/-- Go `type Response Command`. -/
abbrev Response := Command

/-- The zero value `Response{}`. -/
def Response.zero : Response := ⟨0, 0, 0, []⟩

/-- Go `len(s)` as an `int`. -/
def len (s : GoString) : Int := (s.length : Int)

/-- Go `func (rsp *Response) Parse(raw string) error`: returns the receiver
after the call and the error. -/
def Response.Parse (rsp : Response) (raw : GoString) : Response × Option GoError :=
  let tokens := stringsSplit raw (lit "III")
  if tokens.length ≠ 6 then
    (rsp, some (.errorString (lit "failed to parse response: " ++ raw)))
  else
    match Atoi (tokens.getD 1 []) with
    | none => (rsp, some (.errorString (lit "id is not valid: " ++ raw)))
    | some id =>
      let rsp := { rsp with Id := id }
      match Atoi (tokens.getD 2 []) with
      | none => (rsp, some (.errorString (lit "type is not valid: " ++ raw)))
      | some tp =>
        let rsp := { rsp with Typ := tp }
        match Atoi (tokens.getD 3 []) with
        | none => (rsp, some (.errorString (lit "length is not valid: " ++ raw)))
        | some length =>
          let rsp := { rsp with Len := length }
          let rsp := { rsp with Message := tokens.getD 4 [] }
          if len rsp.Message ≠ rsp.Len then
            (rsp, some (.errorString (lit "length is not consistent: " ++ raw)))
          else (rsp, none)

/-! ## unicode/utf8 (character counting) -/

/-- Size and accepted range of the second byte for a leading byte of a
multi-byte sequence (Go's tables `first` and `acceptRanges`); `none` for a
byte that cannot start one. -/
def leadInfo (c : Nat) : Option (Nat × Nat × Nat) :=
  if 0xC2 ≤ c ∧ c ≤ 0xDF then some (2, 0x80, 0xBF)
  else if c = 0xE0 then some (3, 0xA0, 0xBF)
  else if c = 0xED then some (3, 0x80, 0x9F)
  else if 0xE1 ≤ c ∧ c ≤ 0xEF then some (3, 0x80, 0xBF)
  else if c = 0xF0 then some (4, 0x90, 0xBF)
  else if 0xF1 ≤ c ∧ c ≤ 0xF3 then some (4, 0x80, 0xBF)
  else if c = 0xF4 then some (4, 0x80, 0x8F)
  else none

/-- Byte is a UTF-8 continuation byte (`locb ≤ c ≤ hicb`). -/
def isCont (c : Nat) : Bool := 0x80 ≤ c && c ≤ 0xBF

/-- Number of bytes the rune at the head of `s` occupies, as computed in one
iteration of Go `utf8.RuneCountInString` (an invalid or short sequence
counts as one rune of width 1). -/
def runeWidth (s : GoString) : Nat :=
  match s with
  | [] => 0
  | c :: rest =>
    if c < 0x80 then 1
    else
      match leadInfo c with
      | none => 1
      | some (size, lo, hi) =>
        if rest.length + 1 < size then 1
        else if ¬ (lo ≤ rest.getD 0 0 ∧ rest.getD 0 0 ≤ hi) then 1
        else if size = 2 then 2
        else if ¬ isCont (rest.getD 1 0) then 1
        else if size = 3 then 3
        else if ¬ isCont (rest.getD 2 0) then 1
        else 4

/-- Loop of `utf8.RuneCountInString`, bounded by the number of bytes. -/
def runeCountAux : Nat → GoString → Nat
  | 0, _ => 0
  | fuel + 1, s =>
    if s.isEmpty then 0 else 1 + runeCountAux fuel (s.drop (runeWidth s))

/-- Go `utf8.RuneCountInString(s)`: the number of characters of `s`. -/
def RuneCountInString (s : GoString) : Nat :=
  runeCountAux s.length s

/-! ## float32

Every finite `float32` is an integer multiple of `2^-149`, the smallest
subnormal. A finite value is kept as its sign and its magnitude counted in
that unit, so comparison and the exact sum are integer operations and only
rounding needs care. All NaN payloads are identified: no code of the package
observes them. -/

/-- A Go `float32`: NaN, an infinity, or the finite value
`(-1)^neg * mag * 2^-149`. -/
inductive float32
  | nan
  | inf (neg : Bool)
  | fin (neg : Bool) (mag : Nat)
  deriving DecidableEq, Repr

namespace float32

/-- First magnitude (in units of `2^-149`) that no longer is finite:
`2^128 = 2^277 * 2^-149`. -/
def overflowMag : Nat := 2 ^ 277

/-- Signed value of a finite `float32` in units of `2^-149`. -/
def units (neg : Bool) (mag : Nat) : Int :=
  if neg then -(mag : Int) else (mag : Int)

/-- The `float32` of a small integer constant (exact for `|i| < 2^24`). -/
def ofInt (i : Int) : float32 :=
  fin (decide (i < 0)) (i.natAbs * 2 ^ 149)

/-- Go `a < b` on `float32` (IEEE 754: false when either operand is NaN). -/
def lt : float32 → float32 → Bool
  | nan, _ => false
  | _, nan => false
  | inf n1, inf n2 => n1 && !n2
  | inf n1, fin _ _ => n1
  | fin _ _, inf n2 => !n2
  | fin n1 m1, fin n2 m2 => decide (units n1 m1 < units n2 m2)

/-- Go `a > b` on `float32`. -/
def gt (a b : float32) : Bool := lt b a

/-- Go `a <= b` on `float32` (IEEE 754: false when either operand is NaN). -/
def le : float32 → float32 → Bool
  | nan, _ => false
  | _, nan => false
  | inf n1, inf n2 => n1 || !n2
  | inf n1, fin _ _ => n1
  | fin _ _, inf n2 => !n2
  | fin n1 m1, fin n2 m2 => decide (units n1 m1 ≤ units n2 m2)

/-- Floor of the binary logarithm, by repeated halving (`fuel` bounds the
number of halvings). -/
def log2Aux : Nat → Nat → Nat
  | 0, _ => 0
  | fuel + 1, n => if n < 2 then 0 else 1 + log2Aux fuel (n / 2)

/-- Floor of the binary logarithm of `n` (0 for `n = 0`). -/
def log2 (n : Nat) : Nat := log2Aux n n

/-- Round-to-nearest, ties-to-even, of the non-negative rational `N / D` to
an integer. -/
def roundHalfEven (N D : Nat) : Nat :=
  let q := N / D
  let r := N % D
  if 2 * r > D ∨ (2 * r = D ∧ q % 2 = 1) then q + 1 else q

/-- IEEE 754 round-to-nearest-even of the non-negative rational `N / D`,
given in units of `2^-149`, to a magnitude with 24 significant bits. Below
`2^24` units the grid is the integers (subnormals and the first binades);
above, the grid step is `2^u` with `u = ⌊log2 (N / D)⌋ - 23`. The result may
reach `overflowMag`, which the callers turn into an infinity. -/
def roundUnits (N D : Nat) : Nat :=
  let u := log2 (N / D) - 23
  roundHalfEven N (D * 2 ^ u) * 2 ^ u

/-- A rounded magnitude as a `float32`: overflow gives the infinity. -/
def ofRounded (neg : Bool) (mag : Nat) : float32 :=
  if mag ≥ overflowMag then inf neg else fin neg mag

/-- Go `a + b` on `float32` (IEEE 754 binary32 addition, round to nearest
even). -/
def add : float32 → float32 → float32
  | nan, _ => nan
  | _, nan => nan
  | inf n1, inf n2 => if n1 = n2 then inf n1 else nan
  | inf n1, fin _ _ => inf n1
  | fin _ _, inf n2 => inf n2
  | fin n1 m1, fin n2 m2 =>
    let s : Int := units n1 m1 + units n2 m2
    if s = 0 then fin (n1 && n2) 0
    else ofRounded (decide (s < 0)) (roundUnits s.natAbs 1)

end float32

/-! ## strconv.ParseFloat with bitSize 32

`ParseFloat` returns the `float32` nearest to the number the text denotes
(IEEE 754 round to nearest even), `ErrRange` when that is an infinity, and
`ErrSyntax` when the text is not a number. The scanner below follows
`special`, `readFloat` and `underscoreOK` of package `strconv`; the
mantissa is kept exactly (the library's truncation to 19 digits with a
sticky flag is an optimisation that does not change the rounded result). -/

/-- Go `lower(c)` of package `strconv`: `c | ('x' - 'X')`. -/
def lower (c : Nat) : Nat := c ||| 0x20

/-- Go `commonPrefixLenIgnoreCase(s, prefix)` for a lower-case `prefix`. -/
def commonPrefixLenIgnoreCase : GoString → GoString → Nat
  | c :: s, p :: pre =>
    let c := if 65 ≤ c ∧ c ≤ 90 then c + 32 else c
    if c ≠ p then 0 else 1 + commonPrefixLenIgnoreCase s pre
  | _, _ => 0

/-- The infinity branch of Go `special`, entered with the sign removed. -/
def specialInf (neg : Bool) (nsign : Nat) (s : GoString) : Option (float32 × Nat) :=
  let n := commonPrefixLenIgnoreCase s (lit "infinity")
  let n := if 3 < n ∧ n < 8 then 3 else n
  if n = 3 ∨ n = 8 then some (float32.inf neg, nsign + n) else none

/-- Go `special(s)`: recognises `inf`, `infinity` (optionally signed) and
`nan` at the start of `s`, ignoring case; returns the value and the number
of bytes consumed. -/
def special (s : GoString) : Option (float32 × Nat) :=
  match s with
  | [] => none
  | c :: rest =>
    if c = 43 then specialInf false 1 rest
    else if c = 45 then specialInf true 1 rest
    else if c = 105 ∨ c = 73 then specialInf false 0 s
    else if c = 110 ∨ c = 78 then
      if commonPrefixLenIgnoreCase s (lit "nan") = 3 then some (float32.nan, 3) else none
    else none

/-- Local variables of the digit loop of Go `readFloat`. -/
structure MantState where
  mantissa : Nat
  nd : Nat
  dp : Int
  sawdot : Bool
  sawdigits : Bool
  underscores : Bool
  deriving Repr

/-- The digit loop of Go `readFloat`; returns the state at the `break` and
the unread rest of the input. -/
def readMantissa (hex : Bool) : GoString → MantState → MantState × GoString
  | [], st => (st, [])
  | c :: rest, st =>
    if c = 95 then readMantissa hex rest { st with underscores := true }
    else if c = 46 then
      if st.sawdot then (st, c :: rest)
      else readMantissa hex rest { st with sawdot := true, dp := st.nd }
    else if isDigit c then
      if c = 48 ∧ st.nd = 0 then
        readMantissa hex rest { st with sawdigits := true, dp := st.dp - 1 }
      else
        readMantissa hex rest { st with
          sawdigits := true, nd := st.nd + 1,
          mantissa := st.mantissa * (if hex then 16 else 10) + (c - 48) }
    else if hex ∧ 97 ≤ lower c ∧ lower c ≤ 102 then
      readMantissa hex rest { st with
        sawdigits := true, nd := st.nd + 1,
        mantissa := st.mantissa * 16 + (lower c - 97 + 10) }
    else (st, c :: rest)

/-- The exponent-digit loop of Go `readFloat` (the exponent stops growing
once it has reached 10000); returns the exponent, whether an underscore was
seen, and the unread rest. -/
def readExpDigits : GoString → Nat → Bool → Nat × Bool × GoString
  | [], e, us => (e, us, [])
  | c :: rest, e, us =>
    if isDigit c then readExpDigits rest (if e < 10000 then e * 10 + (c - 48) else e) us
    else if c = 95 then readExpDigits rest e true
    else (e, us, c :: rest)

/-- The main loop of Go `underscoreOK`; `saw` is `'^'`, `'0'`, `'_'` or `'!'`. -/
def underscoreOKLoop (hex : Bool) : GoString → Nat → Bool
  | [], saw => saw ≠ 95
  | c :: rest, saw =>
    if isDigit c ∨ (hex ∧ 97 ≤ lower c ∧ lower c ≤ 102) then underscoreOKLoop hex rest 48
    else if c = 95 then
      if saw ≠ 48 then false else underscoreOKLoop hex rest 95
    else if saw = 95 then false
    else underscoreOKLoop hex rest 33

/-- Go `underscoreOK(s)`: underscores only between digits or between a base
prefix and a digit. -/
def underscoreOK (s : GoString) : Bool :=
  let s := if s.head? = some 45 ∨ s.head? = some 43 then s.tail else s
  if s.length ≥ 2 ∧ s.getD 0 0 = 48 ∧
      (lower (s.getD 1 0) = 98 ∨ lower (s.getD 1 0) = 111 ∨ lower (s.getD 1 0) = 120) then
    underscoreOKLoop (lower (s.getD 1 0) = 120) (s.drop 2) 48
  else underscoreOKLoop false s 94

/-- Result of Go `readFloat` when `ok`: the number is
`(-1)^neg * mantissa * base^exp` with base 2 when `hex` and 10 otherwise;
`rest` is the input behind the `n` bytes consumed. -/
structure ReadFloat where
  mantissa : Nat
  exp : Int
  neg : Bool
  hex : Bool
  rest : GoString
  deriving Repr

/-- Go `readFloat(s)`; `none` when `ok` is false. -/
def readFloat (s : GoString) : Option ReadFloat :=
  match s with
  | [] => none
  | c0 :: _ =>
    let neg := decide (c0 = 45)
    let s1 := if c0 = 43 ∨ c0 = 45 then s.tail else s
    let hex := decide (2 < s1.length ∧ s1.getD 0 0 = 48 ∧ lower (s1.getD 1 0) = 120)
    let s2 := if hex then s1.drop 2 else s1
    let (st, r) := readMantissa hex s2 ⟨0, 0, 0, false, false, false⟩
    if ¬ st.sawdigits then none
    else
      let dp : Int := if st.sawdot then st.dp else st.nd
      let dp : Int := if hex then dp * 4 else dp
      let ndMant : Int := if hex then st.nd * 4 else st.nd
      let expChar : Nat := if hex then 112 else 101
      -- optional exponent moves the decimal point
      let tail : Option (Int × Bool × GoString) :=
        match r with
        | c :: r1 =>
          if lower c = expChar then
            match r1 with
            | [] => none
            | c1 :: r2 =>
              let esign : Int := if c1 = 45 then -1 else 1
              let r3 := if c1 = 43 ∨ c1 = 45 then r2 else r1
              match r3 with
              | [] => none
              | c2 :: _ =>
                if ¬ isDigit c2 then none
                else
                  let (e, us, r4) := readExpDigits r3 0 st.underscores
                  some (dp + e * esign, us, r4)
          else if hex then none
          else some (dp, st.underscores, r)
        | [] => if hex then none else some (dp, st.underscores, r)
      match tail with
      | none => none
      | some (dp, underscores, rest) =>
        let exp : Int := if st.mantissa ≠ 0 then dp - ndMant else 0
        if underscores ∧ ¬ underscoreOK (s.take (s.length - rest.length)) then none
        else some ⟨st.mantissa, exp, neg, hex, rest⟩

/-- Magnitude, in units of `2^-149` and rounded to `float32`, of
`mantissa * base^exp`. -/
def roundScaled (mantissa : Nat) (base : Nat) (exp : Int) (shift : Nat) : Nat :=
  if 0 ≤ exp then float32.roundUnits (mantissa * base ^ exp.toNat * 2 ^ shift) 1
  else float32.roundUnits (mantissa * 2 ^ shift) (base ^ (-exp).toNat)

/-- Rounded magnitude of the number read by `readFloat`. -/
def ReadFloat.magnitude (r : ReadFloat) : Nat :=
  if r.hex then
    (if 0 ≤ r.exp + 149 then float32.roundUnits (r.mantissa * 2 ^ (r.exp + 149).toNat) 1
     else float32.roundUnits r.mantissa (2 ^ (-(r.exp + 149)).toNat))
  else roundScaled r.mantissa 10 r.exp 149

/-- Go `syntaxError("ParseFloat", s)`. -/
def syntaxError (s : GoString) : GoError := .numError (lit "ParseFloat") s .ErrSyntax

/-- Go `rangeError("ParseFloat", s)`. -/
def rangeError (s : GoString) : GoError := .numError (lit "ParseFloat") s .ErrRange

/-- Go `strconv.ParseFloat(s, 32)`, the value already converted with
`float32(res)` (the conversion is exact), paired with the error. -/
def ParseFloat32 (s : GoString) : float32 × Option GoError :=
  match special s with
  | some (v, n) =>
    if n ≠ s.length then (float32.fin false 0, some (syntaxError s)) else (v, none)
  | none =>
    match readFloat s with
    | none => (float32.fin false 0, some (syntaxError s))
    | some r =>
      if r.rest ≠ [] then (float32.fin false 0, some (syntaxError s))
      else if r.magnitude ≥ float32.overflowMag then (float32.inf r.neg, some (rangeError s))
      else (float32.fin r.neg r.magnitude, none)

/-! ## fmt verbs -/

/-- Decimal digits of `n`, most significant first, prepended to `acc`
(`fuel` bounds the number of digits). -/
def natDigitsAux : Nat → Nat → List Nat → List Nat
  | 0, _, acc => acc
  | fuel + 1, n, acc =>
    if n < 10 then (48 + n) :: acc
    else natDigitsAux fuel (n / 10) ((48 + n % 10) :: acc)

/-- The decimal numeral of a natural number. -/
def fmtNat (n : Nat) : GoString := natDigitsAux (n + 1) n []

/-- The verb `%d` applied to an `int`. -/
def fmtInt (i : Int) : GoString :=
  if i < 0 then 45 :: fmtNat i.natAbs else fmtNat i.natAbs

/-- The numeral of `n` padded with zeros on the left to six digits. -/
def pad6 (n : Nat) : GoString :=
  let ds := fmtNat n
  List.replicate (6 - ds.length) 48 ++ ds

/-- A finite magnitude (units of `2^-149`) rounded half-to-even to six
fractional decimal digits, as an integer count of millionths. -/
def millionths (mag : Nat) : Nat :=
  float32.roundHalfEven (mag * 10 ^ 6) (2 ^ 149)

/-- The verb `%f` applied to a `float32`: fixed notation with six fractional
digits, the exact value rounded half-to-even; `NaN`, `+Inf` and `-Inf` for
the special values. -/
def fmtF (v : float32) : GoString :=
  match v with
  | .nan => lit "NaN"
  | .inf false => lit "+Inf"
  | .inf true => lit "-Inf"
  | .fin neg mag =>
    let q := millionths mag
    (if neg then [45] else []) ++ fmtNat (q / 10 ^ 6) ++ [46] ++ pad6 (q % 10 ^ 6)

/-! ## position.go -/

/-- Go `const angleLowLimit = -90`, converted to `float32` where it is
compared with one. -/
def angleLowLimit : float32 := float32.ofInt (-90)

/-- Go `const angleHighLimit = 90`. -/
def angleHighLimit : float32 := float32.ofInt 90

/-- Go `type Position struct { Values [6]float32 }`. -/
structure Position where
  Values : Fin 6 → float32

/-- The zero value `Position{}`. -/
def Position.zero : Position := ⟨fun _ => float32.fin false 0⟩

/-- Go `func (p *Position) String() string`:
`Sprintf("%f,%f,%f,%f,%f,%f", ...)`. -/
def Position.String (p : Position) : GoString :=
  fmtF (p.Values 0) ++ [44] ++ fmtF (p.Values 1) ++ [44] ++ fmtF (p.Values 2) ++ [44] ++
    fmtF (p.Values 3) ++ [44] ++ fmtF (p.Values 4) ++ [44] ++ fmtF (p.Values 5)

/-- The loop `for i := range p.Values` of `Position.Parse`, over the indices
still to visit: stops at the first field `ParseFloat` rejects, keeping what
was stored before. -/
def Position.parseLoop (nums : List GoString) : List (Fin 6) → Position → Position × Option GoError
  | [], p => (p, none)
  | i :: is, p =>
    match ParseFloat32 (nums.getD i.val []) with
    | (_, some err) => (p, some err)
    | (res, none) => Position.parseLoop nums is ⟨Function.update p.Values i res⟩

/-- Go `func (p *Position) Parse(str string) error`: returns the receiver
after the call and the error. -/
def Position.Parse (p : Position) (str : GoString) : Position × Option GoError :=
  let nums := stringsSplit str (lit ",")
  if nums.length ≠ 6 then
    (p, some (.errorString (lit "invalid format of " ++ str)))
  else Position.parseLoop nums (List.finRange 6) p

/-- Go `func (p Position) CalcSum(delta Position) Position`. -/
def Position.CalcSum (p delta : Position) : Position :=
  (List.finRange 6).foldl
    (fun res i => ⟨Function.update res.Values i (float32.add (p.Values i) (delta.Values i))⟩)
    Position.zero

/-- Go `type JointsAngle struct { Position }`. -/
structure JointsAngle extends Position

/-- The loop of `JointsAngle.check` over the values still to visit. -/
def checkLoop : List float32 → Bool
  | [] => true
  | j :: rest =>
    if float32.lt j angleLowLimit || float32.gt j angleHighLimit then false
    else checkLoop rest

/-- Go `func (ja *JointsAngle) check() bool`. -/
def JointsAngle.check (ja : JointsAngle) : Bool :=
  checkLoop ((List.finRange 6).map ja.Values)

/-- Go `func (ja JointsAngle) calcSum(delta Position) JointsAngle`. -/
def JointsAngle.calcSum (ja : JointsAngle) (delta : Position) : JointsAngle :=
  let res := ja.toPosition.CalcSum delta
  { toPosition := res }

/-- Go `func (ja *JointsAngle) moveAbsolute(newja JointsAngle) error`:
returns the receiver after the call and the error. -/
def JointsAngle.moveAbsolute (ja newja : JointsAngle) : JointsAngle × Option GoError :=
  if ¬ newja.check then (ja, some (.errorString (lit "invalid position")))
  else ({ ja with Values := newja.Values }, none)

/-- Go `func (ja *JointsAngle) moveRelative(delta JointsAngle) error`. -/
def JointsAngle.moveRelative (ja delta : JointsAngle) : JointsAngle × Option GoError :=
  let newja := ja.calcSum delta.toPosition
  ja.moveAbsolute newja

/-- Go `type ArmPosition struct { Position }`. -/
structure ArmPosition extends Position

/-! ## protocol.go: commands -/

/-- Go `const TemplateGetAngle`. -/
def TemplateGetAngle : GoString := lit "GetActualJointPosDegree()"

/-- Go `const TemplateGetPose`. -/
def TemplateGetPose : GoString := lit "GetActualTCPPose()"

/-- Go `const TypeMoveJ`. -/
def TypeMoveJ : Int := 201

/-- Go `const TypeQuery`. -/
def TypeQuery : Int := 377

/-- Go `fmt.Sprintf(commandTemplate, id, tp, len, message)` with
`commandTemplate = "/f/bIII%dIII%dIII%dIII%sIII/b/f"`. -/
def sprintfCommand (id tp length : Int) (message : GoString) : GoString :=
  lit "/f/bIII" ++ fmtInt id ++ lit "III" ++ fmtInt tp ++ lit "III" ++ fmtInt length ++
    lit "III" ++ message ++ lit "III/b/f"

/-- Go `func (cmd Command) String() string`. -/
def Command.String (cmd : Command) : GoString :=
  sprintfCommand cmd.Id cmd.Typ cmd.Len cmd.Message

/-- Go `fmt.Sprintf(TemplateMoveJ, a, p, speed, acc, blendTime)` with
`TemplateMoveJ = "MoveJ(%s,%s,0,0,%f,%f,100,0.000,0.000,0.000,0.000,%f,0,0,0,0,0,0,0)"`. -/
def sprintfMoveJ (a p : GoString) (speed acc blendTime : float32) : GoString :=
  lit "MoveJ(" ++ a ++ [44] ++ p ++ lit ",0,0," ++ fmtF speed ++ [44] ++ fmtF acc ++
    lit ",100,0.000,0.000,0.000,0.000," ++ fmtF blendTime ++ lit ",0,0,0,0,0,0,0)"

/-- Go `fmt.Sprintf(TemplateForwardKin, a)` with
`TemplateForwardKin = "GetForwardKin(%s)"`. -/
def sprintfForwardKin (a : GoString) : GoString :=
  lit "GetForwardKin(" ++ a ++ lit ")"

/-- Go `rand.Int()%999`, for the non-negative draw `r` of `rand.Int()`. -/
def randId (r : Nat) : Int := ((r % 999 : Nat) : Int)

/-- Go `func NewMoveJ(angles, pos, speed, acc, blendTime) Command`; `r` is
the value drawn by `rand.Int()`. -/
def NewMoveJ (angles : JointsAngle) (pos : ArmPosition) (speed acc blendTime : float32)
    (r : Nat) : Command :=
  let message := sprintfMoveJ angles.toPosition.String pos.toPosition.String speed acc blendTime
  { Id := randId r, Typ := TypeMoveJ, Len := len message, Message := message }

/-- Go `func NewQueryAngles() Command`. -/
def NewQueryAngles (r : Nat) : Command :=
  { Id := randId r, Typ := TypeQuery, Len := len TemplateGetAngle, Message := TemplateGetAngle }

/-- Go `func NewQueryPoses() Command`. -/
def NewQueryPoses (r : Nat) : Command :=
  { Id := randId r, Typ := TypeQuery, Len := len TemplateGetPose, Message := TemplateGetPose }

/-- Go `func NewQueryForwardKin(angles JointsAngle) Command`. -/
def NewQueryForwardKin (angles : JointsAngle) (r : Nat) : Command :=
  let message := sprintfForwardKin angles.toPosition.String
  { Id := randId r, Typ := TypeQuery, Len := len message, Message := message }

/-! ## robot.go: construction-time options -/

/-- The configuration fields of Go `type RobotController struct`: `timeout`
is a `time.Duration` in nanoseconds. The logger, the connection, the lock
and the table of pending requests play no part in the option setters. -/
structure RobotController where
  id : GoString
  address : GoString
  timeout : Int
  speed : float32
  acc : float32
  blendTime : float32

/-- Go `type Option func(rc *RobotController)` (named `ControllerOption`
here, `Option` being taken). -/
abbrev ControllerOption := RobotController → RobotController

/-- Go `func NewRobotController(id, address string, options ...Option)`. -/
def NewRobotController (id address : GoString) (options : List ControllerOption) :
    RobotController :=
  let rc : RobotController :=
    { id := id, address := address, timeout := 3 * 1000000000,
      speed := float32.ofInt 100, acc := float32.ofInt 100, blendTime := float32.ofInt 0 }
  options.foldl (fun rc optionSetter => optionSetter rc) rc

/-- Go `func WithSpeed(speed float32) Option`. -/
def WithSpeed (speed : float32) : ControllerOption :=
  let speed :=
    if float32.lt speed (float32.ofInt 0) then float32.ofInt 0
    else if float32.gt speed (float32.ofInt 100) then float32.ofInt 100
    else speed
  fun rc => { rc with speed := speed }

/-- Go `func WithAcc(acc float32) Option`. -/
def WithAcc (acc : float32) : ControllerOption :=
  let acc :=
    if float32.lt acc (float32.ofInt 0) then float32.ofInt 0
    else if float32.gt acc (float32.ofInt 100) then float32.ofInt 100
    else acc
  fun rc => { rc with acc := acc }

/-- Go `func WithBlendTime(blendTime float32) Option`. -/
def WithBlendTime (blendTime : float32) : ControllerOption :=
  let blendTime :=
    if float32.lt blendTime (float32.ofInt 0) then float32.ofInt 0
    else if float32.gt blendTime (float32.ofInt 500) then float32.ofInt 500
    else blendTime
  fun rc => { rc with blendTime := blendTime }

/-- Go `func WithTimeout(timeout time.Duration) Option`. -/
def WithTimeout (timeout : Int) : ControllerOption :=
  fun rc => { rc with timeout := timeout }

/-! ## Vocabulary of the statements -/

/-- The tokens `strings.Split(raw, "III")` that `Response.Parse` works on. -/
def frameTokens (raw : GoString) : List GoString := stringsSplit raw (lit "III")

/-- The frame of the specification's decode example. -/
def exampleFrame : GoString :=
  lit "/f/bIII7III377III23IIIGetActualJointPosDegree()III/b/f"

/-- The same frame with the length field set to the payload's byte length. -/
def exampleFrame25 : GoString :=
  lit "/f/bIII7III377III25IIIGetActualJointPosDegree()III/b/f"

/-- A frame whose payload is the single two-byte character U+00E9 and whose
declared length is 1. -/
def accentFrame : GoString :=
  lit "/f/bIII1III377III1IIIéIII/b/f"

/-- A frame with six tokens whose id token is not an integer. -/
def badIdFrame : GoString := lit "/f/bIIIxIII377III0IIIIII/b/f"

/-- The closed interval of the joint-angle limits as a Go condition:
`angleLowLimit <= v && v <= angleHighLimit` (false for NaN). -/
def inRange (v : float32) : Bool :=
  float32.le angleLowLimit v && float32.le v angleHighLimit

/-- Go condition `lo <= v && v <= hi` for integer constants `lo`, `hi`. -/
def within (lo hi : Int) (v : float32) : Bool :=
  float32.le (float32.ofInt lo) v && float32.le v (float32.ofInt hi)

/-- The joint angles `{0, 0, 0, 0, 0, 0}`. -/
def zeroAngles : JointsAngle := { toPosition := Position.zero }

/-- The joint angles `{NaN, 0, 0, 0, 0, 0}`. -/
def nanAngles : JointsAngle :=
  { Values := fun i => if i = 0 then float32.nan else float32.fin false 0 }

/-- The joint angles `{91, 0, 0, 0, 0, 0}`. -/
def wideAngles : JointsAngle :=
  { Values := fun i => if i = 0 then float32.ofInt 91 else float32.fin false 0 }

/-- The joint angles `{-10, 10, 0, 0, 0, 0}`. -/
def exampleAngles : JointsAngle :=
  { Values := fun i =>
      if i = 0 then float32.ofInt (-10) else if i = 1 then float32.ofInt 10
      else float32.fin false 0 }

/-- The fields `strings.Split(str, ",")` that `Position.Parse` works on. -/
def positionFields (str : GoString) : List GoString := stringsSplit str (lit ",")

/-- Field `i` of the text is a valid float: `strconv.ParseFloat(field, 32)`
returns a nil error. -/
def validField (str : GoString) (i : Fin 6) : Prop :=
  (ParseFloat32 ((positionFields str).getD i.val [])).2 = none

instance (str : GoString) (i : Fin 6) : Decidable (validField str i) := by
  unfold validField
  infer_instance

/-- The value `ParseFloat` returns for field `i` of the text. -/
def fieldValue (str : GoString) (i : Fin 6) : float32 :=
  (ParseFloat32 ((positionFields str).getD i.val [])).1

/-- The exact rational number read by `readFloat`:
`(-1)^neg * mantissa * base^exp`. -/
def ReadFloat.value (r : ReadFloat) : ℚ :=
  (if r.neg then -1 else 1) * (r.mantissa : ℚ) * (if r.hex then 2 else 10) ^ r.exp

/-- The number a numeric text denotes, when it is a decimal or hexadecimal
floating-point numeral read to its end. -/
def denotes (s : GoString) : Option ℚ :=
  match readFloat s with
  | some r => if r.rest = [] then some r.value else none
  | none => none

/-- Two texts are numerically equal: both are numerals and denote the same
number. -/
def numericallyEqual (a b : GoString) : Prop :=
  (denotes a).isSome = true ∧ denotes a = denotes b

instance (a b : GoString) : Decidable (numericallyEqual a b) := by
  unfold numericallyEqual
  infer_instance

/-- A text of six valid fields whose first field is `10^-7`. -/
def tinyText : GoString := lit "0.0000001,0,0,0,0,0"

/-! ## robot.go: the table of pending requests

`request` and `watch` share `rc.requests`, a `map[int]chan string`, and the
channels it holds. Every access to the map happens between `rc.lock.Lock()`
and `rc.lock.Unlock()`, so each locked section is one atomic step on the
shared state; what the goroutine of `request` does between its locked
sections (the write to the socket, the `select`) are steps of their own, and
a schedule is the order in which the steps of `request` and the deliveries
of `watch` take place. A run-time panic (`close` of a closed channel, send
on a closed channel) is recorded in the shared state. -/

/-- A Go `chan string` made by `make(chan string, 1)`: the buffered values
(at most one) and whether the channel has been closed. -/
structure Chan where
  buf : List GoString
  closed : Bool
  deriving DecidableEq, Repr

/-- The shared state: the map `rc.requests` (a channel is named by its index
in `chans`), the channels made so far, and whether the program has
panicked. -/
structure Engine where
  requests : Int → Option Nat
  chans : List Chan
  panicked : Bool

/-- The state after `NewRobotController`: `make(map[int]chan string)`. -/
def Engine.init : Engine := { requests := fun _ => none, chans := [], panicked := false }

/-- The channel with index `ch`. -/
def Engine.chan (e : Engine) (ch : Nat) : Chan := e.chans.getD ch ⟨[], false⟩

/-- Replace the channel with index `ch`. -/
def Engine.setChan (e : Engine) (ch : Nat) (c : Chan) : Engine :=
  { e with chans := e.chans.set ch c }

/-- Go `make(chan string, 1)`: the new channel is the last of `chans`. -/
def Engine.makeChan (e : Engine) : Engine × Nat :=
  ({ e with chans := e.chans ++ [⟨[], false⟩] }, e.chans.length)

/-- Go `ch <- v` on a channel of capacity 1: a panic when the channel is
closed, `none` (the sender blocks) when the buffer is full. -/
def Engine.send (e : Engine) (ch : Nat) (v : GoString) : Option Engine :=
  if (e.chan ch).closed then some { e with panicked := true }
  else if 1 ≤ (e.chan ch).buf.length then none
  else some (e.setChan ch { e.chan ch with buf := (e.chan ch).buf ++ [v] })

/-- Go `close(ch)`: a panic when the channel is closed already. -/
def Engine.close (e : Engine) (ch : Nat) : Engine :=
  if (e.chan ch).closed then { e with panicked := true }
  else e.setChan ch { e.chan ch with closed := true }

/-- Go `delete(rc.requests, id)`. -/
def Engine.delete (e : Engine) (id : Int) : Engine :=
  { e with requests := Function.update e.requests id none }

/-- Lines 101-104 of `request`: make the channel and, under the lock, store
it in the map under `id`; returns the channel as well. -/
def Engine.register (e : Engine) (id : Int) : Engine × Nat :=
  let (e1, resChan) := e.makeChan
  ({ e1 with requests := Function.update e1.requests id (some resChan) }, resChan)

/-- Lines 118-121 of `request`: under the lock, delete the entry of `id` and
close the channel. -/
def Engine.timeoutSection (e : Engine) (id : Int) (resChan : Nat) : Engine :=
  (e.delete id).close resChan

/-- The locked section of `watch` (robot.go:73-80) for a parsed response:
look the id up and, when found, send the payload, close the channel and
delete the entry. `none` when the send blocks. -/
def Engine.deliver (e : Engine) (rsp : Response) : Option Engine :=
  match e.requests rsp.Id with
  | none => some e
  | some resChan =>
    match e.send resChan rsp.Message with
    | none => none
    | some e1 =>
      if e1.panicked then some e1
      else
        let e2 := e1.close resChan
        if e2.panicked then some e2 else some (e2.delete rsp.Id)

/-- One iteration of the loop of `watch` (robot.go:64-80): `read` is what
`rc.conn.Read` returned, as a string and an error. The result is the shared
state and the error `watch` returns with, `none` when the loop goes on. -/
def watchIteration (e : Engine) (read : GoString × Option GoError) :
    Option (Engine × Option GoError) :=
  match read.2 with
  | some err => some (e, some err)
  | none =>
    match Response.Parse Response.zero read.1 with
    | (_, some err) => some (e, some err)
    | (rsp, none) => (e.deliver rsp).map (fun e1 => (e1, none))

/-- Where the goroutine running `request(cmd)` stands. -/
inductive Pc
  /-- Before `resChan := make(chan string, 1)` (robot.go:101). -/
  | start
  /-- After the registration (robot.go:104), before `rc.conn.Write`. -/
  | registered (resChan : Nat)
  /-- At the `select` (robot.go:113). -/
  | waiting (resChan : Nat)
  /-- The case `<-timer.C` was taken, before `rc.lock.Lock()` (robot.go:118). -/
  | timerTaken (resChan : Nat)
  /-- `request` has returned `(res, err)`. -/
  | returned (res : GoString) (err : Option GoError)
  /-- The goroutine has panicked. -/
  | crashed
  deriving DecidableEq, Repr

/-- The steps of a schedule: those of the goroutine of `request` and the
deliveries of `watch`. -/
inductive Event
  /-- Lines 101-104: make the channel and register it under `cmd.Id`. -/
  | register
  /-- Line 105: `rc.conn.Write` returns `err`. -/
  | write (err : Option GoError)
  /-- Line 114: the `select` takes `res := <-resChan`. -/
  | receive
  /-- Line 117: the `select` takes `<-timer.C`. -/
  | timer
  /-- Lines 118-123: the locked section of the timeout path and the return. -/
  | timeoutSection
  /-- Lines 73-80 of `watch` for the parsed response `rsp`. -/
  | deliver (rsp : Response)
  deriving DecidableEq, Repr

/-- The error value `errors.New("timeout")`. -/
def timeoutError : GoError := .errorString (lit "timeout")

/-- One step of the schedule for the call `request(cmd)`; `none` when the
step cannot take place in the state (wrong program point, nothing to
receive, a blocked send, or after a panic). -/
def requestStep (cmd : Command) (ev : Event) (st : Pc × Engine) : Option (Pc × Engine) :=
  if st.2.panicked then none
  else
    match ev, st.1 with
    | .register, .start =>
      let (e1, resChan) := st.2.register cmd.Id
      some (.registered resChan, e1)
    | .write none, .registered resChan => some (.waiting resChan, st.2)
    | .write (some err), .registered _ => some (.returned [] (some err), st.2)
    | .receive, .waiting resChan =>
      match (st.2.chan resChan).buf with
      | res :: rest =>
        some (.returned res none, st.2.setChan resChan { st.2.chan resChan with buf := rest })
      | [] => if (st.2.chan resChan).closed then some (.returned [] none, st.2) else none
    | .timer, .waiting resChan => some (.timerTaken resChan, st.2)
    | .timeoutSection, .timerTaken resChan =>
      let e1 := st.2.timeoutSection cmd.Id resChan
      if e1.panicked then some (.crashed, e1)
      else some (.returned [] (some timeoutError), e1)
    | .deliver rsp, pc => (st.2.deliver rsp).map (fun e1 => (pc, e1))
    | _, _ => none

/-- A schedule run from a state; `none` when one of its steps cannot take
place. -/
def runSchedule (cmd : Command) : List Event → Pc × Engine → Option (Pc × Engine)
  | [], st => some st
  | ev :: rest, st =>
    match requestStep cmd ev st with
    | none => none
    | some st1 => runSchedule cmd rest st1

/-! ## robot.go: the operations, over `request` as an oracle

The operations see `rc.request` only through what it returns. The `k`-th
call of `request` returns `answer k`, the `k`-th call of `rand.Int()`
returns `draw k`; a run records the commands passed to `request`. -/

/-- What the environment supplies: the outcome of the `k`-th call of
`rc.request` and the value of the `k`-th call of `rand.Int()`. -/
structure Oracle where
  answer : Nat → GoString × Option GoError
  draw : Nat → Nat

/-- The commands passed to `rc.request` so far, oldest first, and the number
of calls of `rand.Int()` so far. -/
structure Run where
  issued : List Command
  drawn : Nat
  deriving DecidableEq, Repr

/-- The run of a fresh controller. -/
def Run.init : Run := { issued := [], drawn := 0 }

/-- The call `rc.request(cmd)` as seen by the operations. -/
def Oracle.request (o : Oracle) (s : Run) (cmd : Command) : Run × GoString × Option GoError :=
  ({ s with issued := s.issued ++ [cmd] }, o.answer s.issued.length)

/-- One call of `rand.Int()`. -/
def Oracle.rand (o : Oracle) (s : Run) : Run × Nat :=
  ({ s with drawn := s.drawn + 1 }, o.draw s.drawn)

/-- Go `func (rc *RobotController) GetJointsAngles() (JointsAngle, error)`. -/
def GetJointsAngles (o : Oracle) (s : Run) : Run × JointsAngle × Option GoError :=
  let angles : JointsAngle := { toPosition := Position.zero }
  let (s, r) := o.rand s
  let (s, res, err) := o.request s (NewQueryAngles r)
  match err with
  | some err => (s, angles, some err)
  | none =>
    let parsed := angles.toPosition.Parse res
    (s, { toPosition := parsed.1 }, parsed.2)

/-- Go `func (rc *RobotController) GetArmPosition() (ArmPosition, error)`. -/
def GetArmPosition (o : Oracle) (s : Run) : Run × ArmPosition × Option GoError :=
  let poses : ArmPosition := { toPosition := Position.zero }
  let (s, r) := o.rand s
  let (s, res, err) := o.request s (NewQueryPoses r)
  match err with
  | some err => (s, poses, some err)
  | none =>
    let parsed := poses.toPosition.Parse res
    (s, { toPosition := parsed.1 }, parsed.2)

/-- The common tail of the two move operations (robot.go:171-186 and
202-216): the forward-kinematics query, `poses.Parse(res)` with its error
dropped, the MoveJ command, and the test of the acknowledgement. -/
def moveTail (rc : RobotController) (o : Oracle) (s : Run) (angles : JointsAngle)
    (poses : ArmPosition) : Run × Option GoError :=
  let (s, r) := o.rand s
  let (s, res, err) := o.request s (NewQueryForwardKin angles r)
  match err with
  | some err => (s, some err)
  | none =>
    let poses : ArmPosition := { toPosition := (poses.toPosition.Parse res).1 }
    let (s, r) := o.rand s
    let (s, res, err) := o.request s (NewMoveJ angles poses rc.speed rc.acc rc.blendTime r)
    match err with
    | some err => (s, some err)
    | none => if res ≠ lit "1" then (s, some (.errorString res)) else (s, none)

/-- Go `func (rc *RobotController) MoveAnglesAbsolute(p Position) error`. -/
def MoveAnglesAbsolute (rc : RobotController) (o : Oracle) (s : Run) (p : Position) :
    Run × Option GoError :=
  let angles : JointsAngle := { toPosition := p }
  let poses : ArmPosition := { toPosition := Position.zero }
  if ¬ angles.check then (s, some (.errorString (lit "invalid position")))
  else moveTail rc o s angles poses

/-- Go `func (rc *RobotController) MoveAnglesRelative(delta Position) error`. -/
def MoveAnglesRelative (rc : RobotController) (o : Oracle) (s : Run) (delta : Position) :
    Run × Option GoError :=
  let angles : JointsAngle := { toPosition := Position.zero }
  let poses : ArmPosition := { toPosition := Position.zero }
  let (s, r) := o.rand s
  let (s, res, err) := o.request s (NewQueryAngles r)
  match err with
  | some err => (s, some err)
  | none =>
    let angles : JointsAngle := { toPosition := (angles.toPosition.Parse res).1 }
    match angles.moveAbsolute (angles.calcSum delta) with
    | (_, some err) => (s, some err)
    | (angles, none) => moveTail rc o s angles poses

/-! ## Vocabulary of the later statements -/

/-- The value fits a Go `int` (64 bits). -/
def isInt64 (i : Int) : Prop := -(2 : Int) ^ 63 ≤ i ∧ i < (2 : Int) ^ 63

instance (i : Int) : Decidable (isInt64 i) := by
  unfold isInt64
  infer_instance

/-- A frame that `Response.Parse` accepts although it is not bracketed by
"/f/b" and "/b/f". -/
def unbracketedFrame : GoString := lit "xIII7III377III25IIIGetActualJointPosDegree()IIIy"

/-- An environment in which every request is answered with the
acknowledgement "1" and the `k`-th draw of `rand.Int()` is `k`. -/
def ackOracle : Oracle := { answer := fun _ => (lit "1", none), draw := fun k => k }

/-- The environment of the specification's example: the arm reports the
current angles `{0,0,0,0,0,0}`, answers the forward-kinematics query with
the pose "1,2,3,4,5,6" and acknowledges the move with "1". -/
def exampleOracle : Oracle :=
  { answer := fun k =>
      if k = 0 then (lit "0,0,0,0,0,0", none)
      else if k = 1 then (lit "1,2,3,4,5,6", none)
      else (lit "1", none),
    draw := fun k => k }

/-- An environment in which the answer to the current-angles query has only
three fields, the third one not a number. -/
def garbledOracle : Oracle :=
  { answer := fun k =>
      if k = 0 then (lit "5,6,oops", none)
      else if k = 1 then (lit "1,2,3,4,5,6", none)
      else (lit "1", none),
    draw := fun k => k }

/-- A controller with the default options. -/
def exampleController : RobotController :=
  NewRobotController (lit "myRobot") (lit "192.168.58.2:8080") []

/-- The number a `float32` stands for: `(-1)^neg * mag * 2^-149` for a
finite value (0 is returned for NaN and the infinities, which stand for no
number). -/
def float32.toRat : float32 → ℚ
  | .fin neg mag => (if neg then -1 else 1) * (mag : ℚ) / 2 ^ 149
  | _ => 0

/-- An environment in which the arm reports the current angles
`{1,2,3,4,5,6}`, answers the forward-kinematics query with the pose
"7,8,9,10,11,12" and acknowledges the move with "1". -/
def offsetOracle : Oracle :=
  { answer := fun k =>
      if k = 0 then (lit "1,2,3,4,5,6", none)
      else if k = 1 then (lit "7,8,9,10,11,12", none)
      else (lit "1", none),
    draw := fun k => k }

/-! # Theorems -/

/-! ## The bounded loops are long enough -/

/-- A non-empty separator is not found in the empty string. -/
theorem stringsIndex_nil (sep : GoString) (hsep : sep ≠ []) : stringsIndex sep [] = none := by
  cases sep with
  | nil => exact absurd rfl hsep
  | cons c rest => rfl

/-- With a non-empty separator, any bound of at least `s.length` cuts gives
the same split: the bound `s.length` of `stringsSplit` never cuts the loop of
`strings.Split` short. -/
theorem genSplit_bound_irrelevant (sep : GoString) (hsep : sep ≠ []) (n : Nat) :
    ∀ m s, s.length ≤ n → s.length ≤ m → genSplit sep n s = genSplit sep m s := by
  have hpos : 0 < sep.length := List.length_pos.mpr hsep
  induction n with
  | zero =>
    intro m s hn _
    have hs : s = [] := List.length_eq_zero.mp (Nat.le_zero.mp hn)
    subst hs
    cases m with
    | zero => rfl
    | succ m => simp [genSplit, stringsIndex_nil sep hsep]
  | succ n ih =>
    intro m s hn hm
    cases m with
    | zero =>
      have hs : s = [] := List.length_eq_zero.mp (Nat.le_zero.mp hm)
      subst hs
      simp [genSplit, stringsIndex_nil sep hsep]
    | succ m =>
      unfold genSplit
      cases hidx : stringsIndex sep s with
      | none => rfl
      | some k =>
        have hlen : (s.drop (k + sep.length)).length ≤ s.length - 1 := by
          rw [List.length_drop]
          omega
        simp only
        rw [ih m (s.drop (k + sep.length)) (by omega) (by omega)]

/-- The halving loop computes the floor of the binary logarithm. -/
theorem float32.log2Aux_spec (fuel : Nat) :
    ∀ n, n ≤ fuel → n ≠ 0 →
      2 ^ float32.log2Aux fuel n ≤ n ∧ n < 2 ^ (float32.log2Aux fuel n + 1) := by
  induction fuel with
  | zero => intro n h h0; omega
  | succ fuel ih =>
    intro n h h0
    unfold float32.log2Aux
    by_cases h2 : n < 2
    · rw [if_pos h2]
      simp
      omega
    · rw [if_neg h2]
      have := ih (n / 2) (by omega) (by omega)
      have e1 : 2 ^ (1 + float32.log2Aux fuel (n / 2)) = 2 * 2 ^ float32.log2Aux fuel (n / 2) := by
        rw [Nat.add_comm, pow_succ, Nat.mul_comm]
      have e2 : 2 ^ (1 + float32.log2Aux fuel (n / 2) + 1) =
          2 * 2 ^ (float32.log2Aux fuel (n / 2) + 1) := by
        rw [Nat.add_comm 1, pow_succ, pow_succ]; ring
      rw [e1, e2]
      omega

/-- `log2 n` is the floor of the binary logarithm of a positive `n`. -/
theorem float32.log2_spec (n : Nat) (h0 : n ≠ 0) :
    2 ^ float32.log2 n ≤ n ∧ n < 2 ^ (float32.log2 n + 1) :=
  float32.log2Aux_spec n n (Nat.le_refl n) h0

/-- The rune at the head of a non-empty string occupies at least one byte. -/
theorem runeWidth_pos (c : Nat) (rest : GoString) : 0 < runeWidth (c :: rest) := by
  simp only [runeWidth]
  by_cases h : c < 128
  · rw [if_pos h]; decide
  · rw [if_neg h]
    cases leadInfo c with
    | none => exact Nat.one_pos
    | some t =>
      obtain ⟨size, lo, hi⟩ := t
      simp only
      split_ifs <;> omega

/-- Any bound of at least `s.length` iterations gives the same count: the
bound of `RuneCountInString` never cuts the loop short. -/
theorem runeCountAux_bound_irrelevant (n : Nat) :
    ∀ m s, s.length ≤ n → s.length ≤ m → runeCountAux n s = runeCountAux m s := by
  induction n with
  | zero =>
    intro m s hn _
    have hs : s = [] := List.length_eq_zero.mp (Nat.le_zero.mp hn)
    subst hs
    cases m <;> rfl
  | succ n ih =>
    intro m s hn hm
    cases s with
    | nil => cases m <;> rfl
    | cons c rest =>
      cases m with
      | zero => simp at hm
      | succ m =>
        unfold runeCountAux
        have hw := runeWidth_pos c rest
        have hlen : ((c :: rest).drop (runeWidth (c :: rest))).length ≤ rest.length := by
          rw [List.length_drop, List.length_cons]
          omega
        simp only [List.length_cons] at hn hm
        simp only [List.isEmpty_cons, Bool.false_eq_true, if_false]
        rw [ih m _ (by omega) (by omega)]

/-! ## Response.Parse -/

/-- The error of `Response.Parse` is absent exactly when all four checks
pass. -/
theorem Response.Parse_error_eq_none_iff (rsp : Response) (raw : GoString) :
    (Response.Parse rsp raw).2 = none ↔
      (frameTokens raw).length = 6 ∧
      ∃ id tp n, Atoi ((frameTokens raw).getD 1 []) = some id ∧
        Atoi ((frameTokens raw).getD 2 []) = some tp ∧
        Atoi ((frameTokens raw).getD 3 []) = some n ∧
        len ((frameTokens raw).getD 4 []) = n := by
  unfold Response.Parse frameTokens
  dsimp only
  generalize stringsSplit raw (lit "III") = T
  generalize T.getD 1 [] = t1
  generalize T.getD 2 [] = t2
  generalize T.getD 3 [] = t3
  generalize T.getD 4 [] = t4
  by_cases h6 : T.length = 6
  · simp only [h6, ne_eq, not_true_eq_false, if_false, true_and]
    cases h1 : Atoi t1 with
    | none => simp
    | some id =>
      cases h2 : Atoi t2 with
      | none => simp
      | some tp =>
        cases h3 : Atoi t3 with
        | none => simp
        | some n =>
          by_cases hl : len t4 = n
          · simp [hl]
          · simp [hl]
  · simp [h6]

/-- C1 (as stated, refuted): on the frame of the specification's example
`Response.Parse` does not succeed; it returns the error "length is not
consistent", since the payload has 25 bytes and the length field says 23. -/
theorem C1_exampleFrame_is_rejected :
    (Response.Parse Response.zero exampleFrame).2 =
        some (.errorString (lit "length is not consistent: " ++ exampleFrame)) ∧
      len TemplateGetAngle = 25 ∧
      ¬ (Response.Parse Response.zero exampleFrame =
          (⟨7, 377, 23, lit "GetActualJointPosDegree()"⟩, none)) := by
  refine ⟨by rfl, by rfl, ?_⟩
  intro h
  have h2 := congrArg Prod.snd h
  have h3 : (Response.Parse Response.zero exampleFrame).2 =
      some (.errorString (lit "length is not consistent: " ++ exampleFrame)) := by rfl
  rw [h3] at h2
  exact Option.noConfusion h2

/-- C1 (amended): whatever the receiver held, `Response.Parse` on the
example frame stores Id = 7, Type = 377, Len = 23 and the payload
"GetActualJointPosDegree()" and returns the error "length is not
consistent"; on the same frame with the length field 25 it succeeds and
yields Id = 7, Type = 377, Len = 25 and that payload. -/
theorem C1_exampleFrame_decode (rsp : Response) :
    Response.Parse rsp exampleFrame =
        (⟨7, 377, 23, lit "GetActualJointPosDegree()"⟩,
          some (.errorString (lit "length is not consistent: " ++ exampleFrame))) ∧
      Response.Parse rsp exampleFrame25 =
        (⟨7, 377, 25, lit "GetActualJointPosDegree()"⟩, none) :=
  ⟨by rfl, by rfl⟩

/-- C2 (as stated, refuted): the frame whose payload is the one character
U+00E9 with declared length 1 has six tokens and valid integer fields, its
declared length equals the number of characters of the payload, and
`Response.Parse` returns an error all the same. -/
theorem C2_character_count_counterexample :
    (frameTokens accentFrame).length = 6 ∧
      Atoi ((frameTokens accentFrame).getD 1 []) = some 1 ∧
      Atoi ((frameTokens accentFrame).getD 2 []) = some 377 ∧
      Atoi ((frameTokens accentFrame).getD 3 []) = some 1 ∧
      (RuneCountInString ((frameTokens accentFrame).getD 4 []) : Int) = 1 ∧
      (Response.Parse Response.zero accentFrame).2 ≠ none := by
  refine ⟨by rfl, by rfl, by rfl, by rfl, by rfl, ?_⟩
  have h : (Response.Parse Response.zero accentFrame).2 =
      some (.errorString (lit "length is not consistent: " ++ accentFrame)) := by rfl
  rw [h]
  exact fun h2 => Option.noConfusion h2

/-- C2 (amended): for every raw frame that splits on "III" into exactly six
tokens whose id, kind and length tokens are valid integers, `Response.Parse`
returns an error if and only if the declared length differs from the number
of bytes of the payload token. -/
theorem C2_length_error_iff_byte_length (rsp : Response) (raw : GoString) (id tp n : Int)
    (h6 : (frameTokens raw).length = 6)
    (hid : Atoi ((frameTokens raw).getD 1 []) = some id)
    (htp : Atoi ((frameTokens raw).getD 2 []) = some tp)
    (hlen : Atoi ((frameTokens raw).getD 3 []) = some n) :
    (Response.Parse rsp raw).2 ≠ none ↔
      n ≠ (((frameTokens raw).getD 4 []).length : Int) := by
  rw [ne_eq, Response.Parse_error_eq_none_iff, hid, htp, hlen]
  simp only [h6, true_and, len]
  constructor
  · intro h hn
    exact h ⟨id, tp, n, rfl, rfl, rfl, hn.symm⟩
  · rintro h ⟨_, _, n', _, _, hn', hl⟩
    cases hn'
    exact h hl.symm

/-- Witness of C2 (amended) at the frame with the two-byte payload: declared
length 1, payload of 2 bytes, error. -/
theorem C2_length_error_iff_byte_length_witness :
    (frameTokens accentFrame).length = 6 ∧
      ((Response.Parse Response.zero accentFrame).2 ≠ none ↔
        (1 : Int) ≠ (((frameTokens accentFrame).getD 4 []).length : Int)) :=
  ⟨by rfl,
    C2_length_error_iff_byte_length Response.zero accentFrame 1 377 1
      (by rfl) (by rfl) (by rfl) (by rfl)⟩

/-- C3: for every raw string, `Response.Parse` returns an error whenever
the split on "III" does not yield exactly six tokens, and whenever token 1
(id), token 2 (kind) or token 3 (length) is not a valid decimal integer. -/
theorem C3_malformed_frame_is_rejected (rsp : Response) (raw : GoString)
    (h : (frameTokens raw).length ≠ 6 ∨
      Atoi ((frameTokens raw).getD 1 []) = none ∨
      Atoi ((frameTokens raw).getD 2 []) = none ∨
      Atoi ((frameTokens raw).getD 3 []) = none) :
    (Response.Parse rsp raw).2 ≠ none := by
  rw [ne_eq, Response.Parse_error_eq_none_iff]
  rintro ⟨h6, id, tp, n, h1, h2, h3, _⟩
  rcases h with h | h | h | h
  · exact h h6
  · rw [h1] at h; exact Option.noConfusion h
  · rw [h2] at h; exact Option.noConfusion h
  · rw [h3] at h; exact Option.noConfusion h

/-- Witness of C3 at a six-token frame whose id token is "x". -/
theorem C3_malformed_frame_is_rejected_witness :
    Atoi ((frameTokens badIdFrame).getD 1 []) = none ∧
      (Response.Parse Response.zero badIdFrame).2 ≠ none :=
  ⟨by rfl,
    C3_malformed_frame_is_rejected Response.zero badIdFrame (Or.inr (Or.inl (by rfl)))⟩

/-! ## float32 comparisons -/

theorem finRange_six : List.finRange 6 = [0, 1, 2, 3, 4, 5] := by rfl

theorem forall_fin_six (P : Fin 6 → Prop) :
    (∀ i, P i) ↔ P 0 ∧ P 1 ∧ P 2 ∧ P 3 ∧ P 4 ∧ P 5 := by
  constructor
  · intro h
    exact ⟨h 0, h 1, h 2, h 3, h 4, h 5⟩
  · rintro ⟨h0, h1, h2, h3, h4, h5⟩ i
    fin_cases i <;> assumption

/-- Away from NaN, `a <= b` is the negation of `b < a`. -/
theorem float32.le_eq_not_lt (a b : float32) (ha : a ≠ .nan) (hb : b ≠ .nan) :
    float32.le a b = !float32.lt b a := by
  cases a with
  | nan => exact absurd rfl ha
  | inf n1 =>
    cases b with
    | nan => exact absurd rfl hb
    | inf n2 => cases n1 <;> cases n2 <;> rfl
    | fin n2 m2 => cases n1 <;> rfl
  | fin n1 m1 =>
    cases b with
    | nan => exact absurd rfl hb
    | inf n2 => cases n2 <;> rfl
    | fin n2 m2 =>
      simp only [float32.le, float32.lt]
      by_cases h : float32.units n1 m1 ≤ float32.units n2 m2
      · simp [h]
      · simp [h, not_le.mp h]

/-- The loop of `check` accepts a list exactly when no element is below the
low limit or above the high limit. -/
theorem checkLoop_eq_true_iff (vs : List float32) :
    checkLoop vs = true ↔
      ∀ v ∈ vs, float32.lt v angleLowLimit = false ∧ float32.gt v angleHighLimit = false := by
  induction vs with
  | nil => simp [checkLoop]
  | cons j rest ih =>
    unfold checkLoop
    by_cases h : (float32.lt j angleLowLimit || float32.gt j angleHighLimit) = true
    · rw [if_pos h]
      simp only [Bool.or_eq_true] at h
      simp only [List.mem_cons, forall_eq_or_imp, Bool.false_eq_true, false_iff, not_and]
      intro h2
      rcases h with h | h
      · rw [h] at h2; exact absurd h2.1 (by decide)
      · rw [h] at h2; exact absurd h2.2 (by decide)
    · rw [if_neg h, ih]
      simp only [Bool.or_eq_true, not_or, Bool.not_eq_true] at h
      simp only [List.mem_cons, forall_eq_or_imp, h, and_self, true_and]

/-- What `check` computes: no value is below -90 and none is above 90. -/
theorem JointsAngle.check_eq_true_iff (ja : JointsAngle) :
    ja.check = true ↔
      ∀ i, float32.lt (ja.Values i) angleLowLimit = false ∧
        float32.gt (ja.Values i) angleHighLimit = false := by
  unfold JointsAngle.check
  rw [checkLoop_eq_true_iff, finRange_six, forall_fin_six]
  simp

/-- For values that are not NaN, `check` is the closed-interval test. -/
theorem JointsAngle.check_eq_true_iff_inRange (ja : JointsAngle)
    (hnan : ∀ i, ja.Values i ≠ .nan) :
    ja.check = true ↔ ∀ i, inRange (ja.Values i) = true := by
  rw [JointsAngle.check_eq_true_iff]
  have hlo : angleLowLimit ≠ .nan := by unfold angleLowLimit float32.ofInt; exact fun h => float32.noConfusion h
  have hhi : angleHighLimit ≠ .nan := by unfold angleHighLimit float32.ofInt; exact fun h => float32.noConfusion h
  constructor
  · intro h i
    unfold inRange
    rw [float32.le_eq_not_lt _ _ hlo (hnan i), float32.le_eq_not_lt _ _ (hnan i) hhi]
    have := h i
    unfold float32.gt at this
    simp [this.1, this.2]
  · intro h i
    have := h i
    unfold inRange at this
    rw [float32.le_eq_not_lt _ _ hlo (hnan i), float32.le_eq_not_lt _ _ (hnan i) hhi] at this
    unfold float32.gt
    simpa using this

/-! ## JointsAngle -/

/-- C4 (the code at the failing input): `check` returns true for the joint
angles `{NaN, 0, 0, 0, 0, 0}` although the first value does not satisfy
`-90 <= v <= 90`. -/
theorem C4_check_accepts_nan :
    nanAngles.check = true ∧ inRange (nanAngles.Values 0) = false :=
  ⟨by rfl, by rfl⟩

/-- C5: for every current JointsAngle and every target, if `check(target)`
is false then `moveAbsolute` returns an error and the six current values are
unchanged, and if `check(target)` is true then it returns no error and the
six current values are those of the target. -/
theorem C5_moveAbsolute (ja target : JointsAngle) :
    (target.check = false →
        (ja.moveAbsolute target).2 = some (.errorString (lit "invalid position")) ∧
        ∀ i, (ja.moveAbsolute target).1.Values i = ja.Values i) ∧
      (target.check = true →
        (ja.moveAbsolute target).2 = none ∧
        ∀ i, (ja.moveAbsolute target).1.Values i = target.Values i) := by
  constructor
  · intro h
    simp [JointsAngle.moveAbsolute, h]
  · intro h
    simp [JointsAngle.moveAbsolute, h]

/-- Witness of C5: moving from `{0,…}` to `{91,0,…}` fails and changes
nothing; moving to `{-10,10,0,…}` succeeds and stores the target. -/
theorem C5_moveAbsolute_witness :
    (wideAngles.check = false ∧
        (zeroAngles.moveAbsolute wideAngles).2 = some (.errorString (lit "invalid position")) ∧
        ∀ i, (zeroAngles.moveAbsolute wideAngles).1.Values i = zeroAngles.Values i) ∧
      (exampleAngles.check = true ∧
        (zeroAngles.moveAbsolute exampleAngles).2 = none ∧
        ∀ i, (zeroAngles.moveAbsolute exampleAngles).1.Values i = exampleAngles.Values i) :=
  ⟨⟨by rfl, (C5_moveAbsolute zeroAngles wideAngles).1 (by rfl)⟩,
    ⟨by rfl, (C5_moveAbsolute zeroAngles exampleAngles).2 (by rfl)⟩⟩

/-- `CalcSum` is the element-wise `float32` sum. -/
theorem Position.CalcSum_Values (p delta : Position) (i : Fin 6) :
    (p.CalcSum delta).Values i = float32.add (p.Values i) (delta.Values i) := by
  unfold Position.CalcSum
  rw [finRange_six]
  fin_cases i <;> simp [Function.update]

/-- `moveRelative` is `moveAbsolute` of the element-wise sum. -/
theorem JointsAngle.moveRelative_eq (c d : JointsAngle) :
    c.moveRelative d = c.moveAbsolute (c.calcSum d.toPosition) := rfl

/-- When no component of the sum is NaN, `moveRelative` succeeds and stores
the sum exactly when every component of the sum lies in `[-90, 90]`, and
otherwise fails leaving the current angles unchanged. -/
theorem JointsAngle.moveRelative_of_ne_nan (c d : JointsAngle)
    (hnan : ∀ i, (c.calcSum d.toPosition).Values i ≠ .nan) :
    ((∀ i, inRange ((c.calcSum d.toPosition).Values i) = true) →
        (c.moveRelative d).2 = none ∧
        ∀ i, (c.moveRelative d).1.Values i = (c.calcSum d.toPosition).Values i) ∧
      ((∃ i, inRange ((c.calcSum d.toPosition).Values i) = false) →
        (c.moveRelative d).2 = some (.errorString (lit "invalid position")) ∧
        ∀ i, (c.moveRelative d).1.Values i = c.Values i) := by
  rw [JointsAngle.moveRelative_eq]
  have hiff := JointsAngle.check_eq_true_iff_inRange (c.calcSum d.toPosition) hnan
  constructor
  · intro h
    have hc : (c.calcSum d.toPosition).check = true := hiff.mpr h
    simp [JointsAngle.moveAbsolute, hc]
  · rintro ⟨i, hi⟩
    have hc : (c.calcSum d.toPosition).check = false := by
      cases hcheck : (c.calcSum d.toPosition).check with
      | false => rfl
      | true =>
        have := hiff.mp hcheck i
        rw [hi] at this
        exact absurd this (by decide)
    simp [JointsAngle.moveAbsolute, hc]

/-- C6 (the code at the failing input): from the current angles
`{NaN, 0, 0, 0, 0, 0}` and the delta `{0, 0, 0, 0, 0, 0}` the sum has a first
component (NaN) that does not lie in `[-90, 90]`, yet `moveRelative`
returns no error and stores the sum. -/
theorem C6_moveRelative_accepts_nan :
    (nanAngles.calcSum zeroAngles.toPosition).Values 0 = float32.nan ∧
      inRange ((nanAngles.calcSum zeroAngles.toPosition).Values 0) = false ∧
      (nanAngles.moveRelative zeroAngles).2 = none ∧
      (nanAngles.moveRelative zeroAngles).1.Values 0 = float32.nan :=
  ⟨by rfl, by rfl, by rfl, by rfl⟩

/-! ## Position.Parse -/

/-- When every visited field is valid the loop of `Parse` ends without
error, having stored the parsed value at every visited index and left the
others as they were. -/
theorem Position.parseLoop_ok (nums : List GoString) (is : List (Fin 6)) :
    ∀ p : Position, (∀ i ∈ is, (ParseFloat32 (nums.getD i.val [])).2 = none) →
      (Position.parseLoop nums is p).2 = none ∧
      ∀ j, (Position.parseLoop nums is p).1.Values j =
        if j ∈ is then (ParseFloat32 (nums.getD j.val [])).1 else p.Values j := by
  induction is with
  | nil => intro p _; simp [Position.parseLoop]
  | cons i rest ih =>
    intro p h
    have hi := h i (List.mem_cons_self i rest)
    rcases hpf : ParseFloat32 (nums.getD i.val []) with ⟨res, e⟩
    rw [hpf] at hi
    simp only at hi
    subst hi
    have hrest : ∀ k ∈ rest, (ParseFloat32 (nums.getD k.val [])).2 = none :=
      fun k hk => h k (List.mem_cons_of_mem i hk)
    have := ih ⟨Function.update p.Values i res⟩ hrest
    simp only [Position.parseLoop, hpf]
    refine ⟨this.1, fun j => ?_⟩
    rw [this.2 j]
    by_cases hj : j ∈ rest
    · rw [if_pos hj, if_pos (List.mem_cons_of_mem i hj)]
    · by_cases hji : j = i
      · subst hji
        rw [if_neg hj, if_pos (List.mem_cons_self j rest), hpf]
        simp
      · have hjm : j ∉ i :: rest := fun hm => (List.mem_cons.mp hm).elim hji hj
        rw [if_neg hj, if_neg hjm]
        simp [Function.update, hji]

/-- When some visited field is invalid the loop of `Parse` ends with an
error. -/
theorem Position.parseLoop_err (nums : List GoString) (is : List (Fin 6)) :
    ∀ p : Position, (∃ i ∈ is, (ParseFloat32 (nums.getD i.val [])).2 ≠ none) →
      (Position.parseLoop nums is p).2 ≠ none := by
  induction is with
  | nil => intro p h; simp at h
  | cons i rest ih =>
    intro p h
    rcases hpf : ParseFloat32 (nums.getD i.val []) with ⟨res, e⟩
    cases e with
    | some err =>
      simp only [Position.parseLoop, hpf]
      exact fun h2 => Option.noConfusion h2
    | none =>
      simp only [Position.parseLoop, hpf]
      apply ih
      obtain ⟨k, hk, hbad⟩ := h
      rcases List.mem_cons.mp hk with hki | hk
      · subst hki
        rw [hpf] at hbad
        exact absurd rfl hbad
      · exact ⟨k, hk, hbad⟩

/-- On six valid fields `Parse` returns no error and stores the six parsed
values in order. -/
theorem Position.Parse_ok (p : Position) (str : GoString)
    (h6 : (positionFields str).length = 6) (hvalid : ∀ i, validField str i) :
    (p.Parse str).2 = none ∧ ∀ i, (p.Parse str).1.Values i = fieldValue str i := by
  unfold Position.Parse validField fieldValue positionFields at *
  dsimp only
  rw [if_neg (not_not.mpr h6)]
  have := Position.parseLoop_ok (stringsSplit str (lit ",")) (List.finRange 6) p
    (fun i _ => hvalid i)
  refine ⟨this.1, fun i => ?_⟩
  rw [this.2 i, if_pos (List.mem_finRange i)]

/-- C7: for every string, `Position.Parse` returns an error if the split on
"," gives a number of fields other than 6, or if one of the six fields is not
a valid float; for every string of exactly six valid float fields it
returns no error and stores the six parsed values in order. -/
theorem C7_Position_Parse (p : Position) (str : GoString) :
    ((positionFields str).length ≠ 6 → (p.Parse str).2 ≠ none) ∧
      ((∃ i, ¬ validField str i) → (p.Parse str).2 ≠ none) ∧
      ((positionFields str).length = 6 → (∀ i, validField str i) →
        (p.Parse str).2 = none ∧ ∀ i, (p.Parse str).1.Values i = fieldValue str i) := by
  unfold Position.Parse validField fieldValue positionFields
  dsimp only
  refine ⟨?_, ?_, ?_⟩
  · intro h
    rw [if_pos h]
    exact fun h2 => Option.noConfusion h2
  · rintro ⟨i, hi⟩
    by_cases h : (stringsSplit str (lit ",")).length ≠ 6
    · rw [if_pos h]
      exact fun h2 => Option.noConfusion h2
    · rw [if_neg h]
      exact Position.parseLoop_err _ _ p ⟨i, List.mem_finRange i, hi⟩
  · intro h hall
    rw [if_neg (not_not.mpr h)]
    have := Position.parseLoop_ok (stringsSplit str (lit ",")) (List.finRange 6) p
      (fun i _ => hall i)
    refine ⟨this.1, fun i => ?_⟩
    rw [this.2 i, if_pos (List.mem_finRange i)]

/-- Witness of C7: "1,2" has two fields and is rejected; "1,2,x,4,5,6" has
the invalid field "x" and is rejected; "1,2.5,-3,4,5,6" is accepted. -/
theorem C7_Position_Parse_witness :
    ((positionFields (lit "1,2")).length ≠ 6 ∧
        (Position.zero.Parse (lit "1,2")).2 ≠ none) ∧
      (¬ validField (lit "1,2,x,4,5,6") 2 ∧
        (Position.zero.Parse (lit "1,2,x,4,5,6")).2 ≠ none) ∧
      ((positionFields (lit "1,2.5,-3,4,5,6")).length = 6 ∧
        (Position.zero.Parse (lit "1,2.5,-3,4,5,6")).2 = none ∧
        ∀ i, (Position.zero.Parse (lit "1,2.5,-3,4,5,6")).1.Values i =
          fieldValue (lit "1,2.5,-3,4,5,6") i) :=
  ⟨⟨by decide, (C7_Position_Parse Position.zero (lit "1,2")).1 (by decide)⟩,
    ⟨by unfold validField; decide,
      (C7_Position_Parse Position.zero (lit "1,2,x,4,5,6")).2.1
        ⟨2, by unfold validField; decide⟩⟩,
    ⟨by rfl,
      (C7_Position_Parse Position.zero (lit "1,2.5,-3,4,5,6")).2.2 (by rfl)
        ((forall_fin_six _).mpr
          ⟨by decide!, by decide!, by decide!, by decide!, by decide!, by decide!⟩)⟩⟩

/-! ## Command constructors -/

/-- C9: every Command returned by `NewMoveJ`, `NewQueryAngles`,
`NewQueryPoses` and `NewQueryForwardKin`, for every argument and every value
`r` drawn by `rand.Int()`, has `Len` equal to the byte length of its
`Message`. -/
theorem C9_Len_is_byte_length_of_Message (angles : JointsAngle) (pos : ArmPosition)
    (speed acc blendTime : float32) (r : Nat) :
    (NewMoveJ angles pos speed acc blendTime r).Len =
        ((NewMoveJ angles pos speed acc blendTime r).Message.length : Int) ∧
      (NewQueryAngles r).Len = ((NewQueryAngles r).Message.length : Int) ∧
      (NewQueryPoses r).Len = ((NewQueryPoses r).Message.length : Int) ∧
      (NewQueryForwardKin angles r).Len =
        ((NewQueryForwardKin angles r).Message.length : Int) :=
  ⟨rfl, rfl, rfl, rfl⟩

/-! ## Option setters -/

/-- The clamping `if`-chain of the option setters, away from NaN: the result
lies in `[0, hi]`, in-range inputs are kept, inputs below 0 give 0 and
inputs above `hi` give `hi`. -/
theorem clamp_of_ne_nan (hi : Int) (hhi : 0 ≤ hi) (v : float32) (hv : v ≠ .nan) :
    within 0 hi
        (if float32.lt v (float32.ofInt 0) then float32.ofInt 0
          else if float32.gt v (float32.ofInt hi) then float32.ofInt hi else v) = true ∧
      (within 0 hi v = true →
        (if float32.lt v (float32.ofInt 0) then float32.ofInt 0
          else if float32.gt v (float32.ofInt hi) then float32.ofInt hi else v) = v) := by
  have h0 : float32.ofInt 0 ≠ .nan := fun h => float32.noConfusion h
  have hh : float32.ofInt hi ≠ .nan := fun h => float32.noConfusion h
  have h0hi : float32.le (float32.ofInt 0) (float32.ofInt hi) = true := by
    have : ¬ hi < 0 := not_lt.mpr hhi
    simp [float32.ofInt, float32.le, float32.units, this]
  have h00 : float32.le (float32.ofInt 0) (float32.ofInt 0) = true := by
    simp [float32.ofInt, float32.le, float32.units]
  have hhh : float32.le (float32.ofInt hi) (float32.ofInt hi) = true := by
    simp [float32.ofInt, float32.le, float32.units]
  unfold within
  by_cases h1 : float32.lt v (float32.ofInt 0) = true
  · rw [if_pos h1]
    refine ⟨by simp [h00, h0hi], ?_⟩
    intro hw
    rw [float32.le_eq_not_lt _ _ h0 hv, h1] at hw
    simp at hw
  · rw [if_neg h1]
    by_cases h2 : float32.gt v (float32.ofInt hi) = true
    · rw [if_pos h2]
      refine ⟨by simp [hhh, h0hi], ?_⟩
      intro hw
      unfold float32.gt at h2
      rw [float32.le_eq_not_lt _ _ hv hh, h2] at hw
      simp at hw
    · rw [if_neg h2]
      refine ⟨?_, fun _ => rfl⟩
      unfold float32.gt at h2
      rw [float32.le_eq_not_lt _ _ h0 hv, float32.le_eq_not_lt _ _ hv hh]
      simp only [Bool.not_eq_true] at h1 h2
      simp [h1, h2]

/-- Away from NaN the three setters clamp: the stored speed and
acceleration lie in `[0, 100]`, the stored blend time in `[0, 500]`, and an
in-range input is stored unchanged. -/
theorem options_clamp_of_ne_nan (id address : GoString) (v : float32) (hv : v ≠ .nan) :
    (within 0 100 (NewRobotController id address [WithSpeed v]).speed = true ∧
        (within 0 100 v = true → (NewRobotController id address [WithSpeed v]).speed = v)) ∧
      (within 0 100 (NewRobotController id address [WithAcc v]).acc = true ∧
        (within 0 100 v = true → (NewRobotController id address [WithAcc v]).acc = v)) ∧
      (within 0 500 (NewRobotController id address [WithBlendTime v]).blendTime = true ∧
        (within 0 500 v = true →
          (NewRobotController id address [WithBlendTime v]).blendTime = v)) :=
  ⟨clamp_of_ne_nan 100 (by decide) v hv, clamp_of_ne_nan 100 (by decide) v hv,
    clamp_of_ne_nan 500 (by decide) v hv⟩

/-- C10 (the code at the failing input): built with `WithSpeed(NaN)`,
`WithAcc(NaN)` or `WithBlendTime(NaN)` the controller stores NaN, which lies
neither in `[0, 100]` nor in `[0, 500]`. -/
theorem C10_options_store_nan (id address : GoString) :
    (NewRobotController id address [WithSpeed .nan]).speed = .nan ∧
      (NewRobotController id address [WithAcc .nan]).acc = .nan ∧
      (NewRobotController id address [WithBlendTime .nan]).blendTime = .nan ∧
      within 0 100 .nan = false ∧ within 0 500 .nan = false :=
  ⟨rfl, rfl, rfl, rfl, rfl⟩

/-! ## Parse followed by String -/

/-- Positional value of a concatenation. -/
theorem decimalValue_append (xs ys : List Nat) :
    decimalValue (xs ++ ys) = decimalValue xs * 10 ^ ys.length + decimalValue ys := by
  unfold decimalValue
  rw [List.foldl_append]
  generalize List.foldl (fun n c => n * 10 + (c - 48)) 0 xs = a
  induction ys generalizing a with
  | nil => simp
  | cons y rest ih =>
    simp only [List.foldl_cons, List.length_cons]
    rw [ih (a * 10 + (y - 48)), ih (0 * 10 + (y - 48))]
    ring

/-- The digits produced for `n` denote `n`. -/
theorem decimalValue_natDigitsAux (fuel : Nat) :
    ∀ n acc, n < fuel →
      decimalValue (natDigitsAux fuel n acc) = n * 10 ^ acc.length + decimalValue acc := by
  induction fuel with
  | zero => intro n acc h; omega
  | succ fuel ih =>
    intro n acc h
    unfold natDigitsAux
    by_cases h10 : n < 10
    · rw [if_pos h10]
      have := decimalValue_append [48 + n] acc
      simp only [List.singleton_append] at this
      rw [this]
      simp [decimalValue]
    · rw [if_neg h10, ih (n / 10) _ (by omega)]
      have := decimalValue_append [48 + n % 10] acc
      simp only [List.singleton_append] at this
      rw [this]
      simp only [decimalValue, List.foldl_cons, List.foldl_nil, List.length_cons, zero_mul,
        zero_add, Nat.add_sub_cancel_left]
      have hn := Nat.div_add_mod n 10
      generalize n / 10 = a at hn ⊢
      generalize n % 10 = b at hn ⊢
      subst hn
      ring

/-- The numeral of `n` denotes `n`. -/
theorem decimalValue_fmtNat (n : Nat) : decimalValue (fmtNat n) = n := by
  unfold fmtNat
  rw [decimalValue_natDigitsAux (n + 1) n [] (by omega)]
  simp [decimalValue]

/-- A number below `10^k` has at most `k` digits. -/
theorem natDigitsAux_length (fuel : Nat) :
    ∀ n acc k, n < 10 ^ (k + 1) →
      (natDigitsAux fuel n acc).length ≤ acc.length + (k + 1) := by
  induction fuel with
  | zero => intro n acc k _; simp [natDigitsAux]
  | succ fuel ih =>
    intro n acc k h
    unfold natDigitsAux
    by_cases h10 : n < 10
    · rw [if_pos h10]
      simp only [List.length_cons]
      omega
    · rw [if_neg h10]
      cases k with
      | zero => simp at h; omega
      | succ k =>
        have hlt : n / 10 < 10 ^ (k + 1) := by
          rw [Nat.div_lt_iff_lt_mul (by decide)]
          rw [pow_succ] at h
          exact h
        have := ih (n / 10) ((48 + n % 10) :: acc) k hlt
        simp only [List.length_cons] at this
        omega

/-- The fraction part is rendered with exactly six digits. -/
theorem pad6_length (n : Nat) (h : n < 10 ^ 6) : (pad6 n).length = 6 := by
  unfold pad6
  have := natDigitsAux_length (n + 1) n [] 5 h
  simp only [List.length_nil, zero_add] at this
  simp only [List.length_append, List.length_replicate]
  unfold fmtNat
  omega

/-- The six fraction digits denote the number they were made from. -/
theorem decimalValue_pad6 (n : Nat) : decimalValue (pad6 n) = n := by
  unfold pad6
  rw [decimalValue_append, decimalValue_fmtNat]
  have : decimalValue (List.replicate (6 - (fmtNat n).length) 48) = 0 := by
    generalize 6 - (fmtNat n).length = k
    induction k with
    | zero => rfl
    | succ k ih =>
      rw [List.replicate_succ]
      have h := decimalValue_append [48] (List.replicate k 48)
      simp only [List.singleton_append] at h
      rw [h, ih]
      simp [decimalValue]
  rw [this]
  simp

/-- Rounding half-to-even moves a quotient by at most one half. -/
theorem float32.roundHalfEven_error (N D : Nat) (hD : 0 < D) :
    2 * (float32.roundHalfEven N D * D) ≤ 2 * N + D ∧
      2 * N ≤ 2 * (float32.roundHalfEven N D * D) + D := by
  unfold float32.roundHalfEven
  have hdm := Nat.div_add_mod N D
  have hlt := Nat.mod_lt N hD
  generalize hq : N / D = q at hdm ⊢
  generalize hr : N % D = r at hdm hlt ⊢
  have hmul : D * q = q * D := Nat.mul_comm D q
  have hsucc : (q + 1) * D = q * D + D := by ring
  generalize hX : q * D = X at hmul hsucc
  dsimp only
  split
  · rename_i h
    rw [hsucc]
    omega
  · rename_i h
    rw [hX]
    omega

/-- `String` after a successful `Parse` of six valid fields renders the six
parsed values in order. -/
theorem Position.String_eq_of_Values (p : Position) (v : Fin 6 → float32)
    (h : ∀ i, p.Values i = v i) :
    p.String = fmtF (v 0) ++ [44] ++ fmtF (v 1) ++ [44] ++ fmtF (v 2) ++ [44] ++
      fmtF (v 3) ++ [44] ++ fmtF (v 4) ++ [44] ++ fmtF (v 5) := by
  unfold Position.String
  rw [h 0, h 1, h 2, h 3, h 4, h 5]

/-- C8 (as stated, refuted): "0.0000001,0,0,0,0,0" has six valid fields and
is parsed without error, `String` then gives
"0.000000,0.000000,0.000000,0.000000,0.000000,0.000000", and the first field
of that text (denoting 0) is not numerically equal to the first field of
the input (denoting `10^-7`). -/
theorem C8_roundtrip_counterexample :
    (positionFields tinyText).length = 6 ∧ (∀ i, validField tinyText i) ∧
      (Position.zero.Parse tinyText).2 = none ∧
      (Position.zero.Parse tinyText).1.String =
        lit "0.000000,0.000000,0.000000,0.000000,0.000000,0.000000" ∧
      ¬ numericallyEqual ((positionFields tinyText).getD 0 [])
          ((positionFields (Position.zero.Parse tinyText).1.String).getD 0 []) := by
  have hs : (Position.zero.Parse tinyText).1.String =
      lit "0.000000,0.000000,0.000000,0.000000,0.000000,0.000000" := by decide!
  refine ⟨by rfl, (forall_fin_six _).mpr
      ⟨by decide!, by decide!, by decide!, by decide!, by decide!, by decide!⟩,
    by decide!, hs, ?_⟩
  rw [hs]
  have h1 : (positionFields tinyText).getD 0 [] = lit "0.0000001" := by rfl
  have h2 : (positionFields
      (lit "0.000000,0.000000,0.000000,0.000000,0.000000,0.000000")).getD 0 [] =
      lit "0.000000" := by rfl
  have r1 : readFloat (lit "0.0000001") = some ⟨1, -7, false, false, []⟩ := by rfl
  have r2 : readFloat (lit "0.000000") = some ⟨0, 0, false, false, []⟩ := by rfl
  rw [h1, h2]
  rintro ⟨_, hx⟩
  simp only [denotes, r1, r2, ReadFloat.value, if_true] at hx
  norm_num at hx

/-! ## Splitting a frame -/

theorem lit_III : lit "III" = [73, 73, 73] := by rfl

/-- `isPrefixOf` on byte strings is the prefix relation. -/
theorem isPrefixOf_eq_true_iff (sep s : GoString) : sep.isPrefixOf s = true ↔ sep <+: s :=
  List.isPrefixOf_iff_prefix

/-- A separator found in `a` lies within `a`. -/
theorem stringsIndex_bound (sep : GoString) :
    ∀ (a : GoString) (k : Nat), stringsIndex sep a = some k → k + sep.length ≤ a.length := by
  intro a
  induction a with
  | nil =>
    intro k h
    unfold stringsIndex at h
    split at h
    · rename_i he
      have : sep = [] := by simpa using he
      subst this
      cases h
      simp
    · cases h
  | cons c rest ih =>
    intro k h
    unfold stringsIndex at h
    split at h
    · rename_i hp
      cases h
      have := (isPrefixOf_eq_true_iff sep (c :: rest)).mp hp
      have := this.length_le
      omega
    · cases hi : stringsIndex sep rest with
      | none => rw [hi] at h; cases h
      | some j =>
        rw [hi] at h
        simp only [Option.map_some', Option.some.injEq] at h
        have := ih j hi
        simp only [List.length_cons]
        omega

/-- The first occurrence of the separator in `a` is its first occurrence in
`a ++ b`. -/
theorem stringsIndex_append_left (sep b : GoString) :
    ∀ (a : GoString) (k : Nat), stringsIndex sep a = some k →
      stringsIndex sep (a ++ b) = some k := by
  intro a
  induction a with
  | nil =>
    intro k h
    unfold stringsIndex at h
    split at h
    · rename_i he
      have : sep = [] := by simpa using he
      subst this
      cases h
      cases b with
      | nil => rfl
      | cons c rest => simp [stringsIndex]
    · cases h
  | cons c rest ih =>
    intro k h
    have hb := stringsIndex_bound sep (c :: rest) k h
    unfold stringsIndex at h
    rw [List.cons_append]
    unfold stringsIndex
    by_cases hp : sep.isPrefixOf (c :: rest) = true
    · rw [if_pos hp] at h
      have : sep.isPrefixOf (c :: (rest ++ b)) = true := by
        rw [isPrefixOf_eq_true_iff] at hp ⊢
        rw [← List.cons_append]
        exact hp.trans (List.prefix_append _ _)
      rw [if_pos this]
      exact h
    · rw [if_neg hp] at h
      have : ¬ sep.isPrefixOf (c :: (rest ++ b)) = true := by
        intro hq
        apply hp
        rw [isPrefixOf_eq_true_iff] at hq ⊢
        rw [← List.cons_append] at hq
        exact List.prefix_of_prefix_length_le hq (List.prefix_append _ _) (by omega)
      rw [if_neg this]
      cases hi : stringsIndex sep rest with
      | none => rw [hi] at h; cases h
      | some j =>
        rw [hi] at h
        rw [ih j hi]
        exact h

/-- A separator that occurs in `b` occurs in `a ++ b`. -/
theorem stringsIndex_append_right (sep b : GoString) (hb : stringsIndex sep b ≠ none) :
    ∀ a : GoString, stringsIndex sep (a ++ b) ≠ none := by
  intro a
  induction a with
  | nil => simpa using hb
  | cons c rest ih =>
    rw [List.cons_append]
    unfold stringsIndex
    split
    · exact fun h => Option.noConfusion h
    · cases hi : stringsIndex sep (rest ++ b) with
      | none => exact absurd hi ih
      | some j => exact fun h => Option.noConfusion h

/-- A split has at least one element. -/
theorem genSplit_length_pos (sep : GoString) (n : Nat) (s : GoString) :
    1 ≤ (genSplit sep n s).length := by
  cases n with
  | zero => simp [genSplit]
  | succ n =>
    unfold genSplit
    cases stringsIndex sep s <;> simp

/-- Without an occurrence of the separator the split is the string itself. -/
theorem genSplit_of_index_none (sep : GoString) (n : Nat) (s : GoString)
    (h : stringsIndex sep s = none) : genSplit sep n s = [s] := by
  cases n with
  | zero => rfl
  | succ n => unfold genSplit; rw [h]

/-- Appending a string in which the separator occurs adds at least one
element to the split. -/
theorem genSplit_append_length (sep b : GoString) (hsep : sep ≠ [])
    (hb : stringsIndex sep b ≠ none) (n : Nat) :
    ∀ (a : GoString) (m : Nat), a.length ≤ n → (a ++ b).length ≤ m →
      (genSplit sep n a).length + 1 ≤ (genSplit sep m (a ++ b)).length := by
  have hpos : 0 < sep.length := List.length_pos.mpr hsep
  have hblen : 1 ≤ b.length := by
    cases hi : stringsIndex sep b with
    | none => exact absurd hi hb
    | some j =>
      have := stringsIndex_bound sep b j hi
      omega
  -- the case in which the separator does not occur in `a`
  have base : ∀ (a : GoString) (m : Nat), (a ++ b).length ≤ m →
      1 + 1 ≤ (genSplit sep m (a ++ b)).length := by
    intro a m hm
    cases m with
    | zero => simp only [List.length_append] at hm; omega
    | succ m =>
      unfold genSplit
      cases hi : stringsIndex sep (a ++ b) with
      | none => exact absurd hi (stringsIndex_append_right sep b hb a)
      | some j =>
        simp only [List.length_cons]
        have := genSplit_length_pos sep m ((a ++ b).drop (j + sep.length))
        omega
  induction n with
  | zero =>
    intro a m _ hm
    simpa [genSplit] using base a m hm
  | succ n ih =>
    intro a m hn hm
    cases hi : stringsIndex sep a with
    | none =>
      rw [genSplit_of_index_none sep (n + 1) a hi]
      simpa using base a m hm
    | some k =>
      have hk := stringsIndex_bound sep a k hi
      cases m with
      | zero => simp only [List.length_append] at hm; omega
      | succ m =>
        unfold genSplit
        rw [hi, stringsIndex_append_left sep b a k hi]
        simp only [List.length_cons]
        have hdrop : (a ++ b).drop (k + sep.length) = a.drop (k + sep.length) ++ b := by
          rw [List.drop_append_of_le_length hk]
        rw [hdrop]
        have h1 : (a.drop (k + sep.length)).length ≤ n := by
          rw [List.length_drop]; omega
        have h2 : (a.drop (k + sep.length) ++ b).length ≤ m := by
          simp only [List.length_append, List.length_drop] at hm ⊢
          omega
        have := ih (a.drop (k + sep.length)) m h1 h2
        omega

/-- A string with more than one token contains the separator. -/
theorem stringsIndex_ne_none_of_tokens (sep s : GoString)
    (h : (stringsSplit s sep).length ≠ 1) : stringsIndex sep s ≠ none := by
  intro hi
  apply h
  unfold stringsSplit
  rw [genSplit_of_index_none sep _ s hi]
  rfl

/-- C17: `Response.Parse` does not look at the first and the last token: for
every two raw strings that each split on "III" into exactly six tokens and
agree on tokens 1 to 4, it returns an error for both or for neither and
leaves the same Id, Type, Len and Message in the receiver. -/
theorem C17_markers_are_not_checked (rsp : Response) (raw1 raw2 : GoString)
    (h1 : (frameTokens raw1).length = 6) (h2 : (frameTokens raw2).length = 6)
    (ht : ∀ i, 1 ≤ i → i ≤ 4 → (frameTokens raw1).getD i [] = (frameTokens raw2).getD i []) :
    ((Response.Parse rsp raw1).2 = none ↔ (Response.Parse rsp raw2).2 = none) ∧
      (Response.Parse rsp raw1).1 = (Response.Parse rsp raw2).1 := by
  have e1 := ht 1 (by decide) (by decide)
  have e2 := ht 2 (by decide) (by decide)
  have e3 := ht 3 (by decide) (by decide)
  have e4 := ht 4 (by decide) (by decide)
  unfold frameTokens at h1 h2 e1 e2 e3 e4
  unfold Response.Parse
  dsimp only
  rw [e1, e2, e3, e4]
  simp only [h1, h2, ne_eq, not_true_eq_false, if_false]
  generalize (stringsSplit raw2 (lit "III")).getD 1 [] = t1
  generalize (stringsSplit raw2 (lit "III")).getD 2 [] = t2
  generalize (stringsSplit raw2 (lit "III")).getD 3 [] = t3
  generalize (stringsSplit raw2 (lit "III")).getD 4 [] = t4
  cases Atoi t1 with
  | none => simp
  | some id =>
    cases Atoi t2 with
    | none => simp
    | some tp =>
      cases Atoi t3 with
      | none => simp
      | some n =>
        by_cases hl : len t4 = n
        · simp [hl]
        · simp [hl]

/-- Witness of C17: the example frame with length 25 and the same fields
between the markers "x" and "y" are both accepted, with the same result. -/
theorem C17_markers_are_not_checked_witness :
    (frameTokens unbracketedFrame).getD 0 [] = lit "x" ∧
      (frameTokens unbracketedFrame).getD 5 [] = lit "y" ∧
      (Response.Parse Response.zero unbracketedFrame).2 = none ∧
      (Response.Parse Response.zero exampleFrame25).1 =
        (Response.Parse Response.zero unbracketedFrame).1 := by
  have h := C17_markers_are_not_checked Response.zero exampleFrame25 unbracketedFrame
    (by rfl) (by rfl)
    (by intro i h1 h4; interval_cases i <;> rfl)
  exact ⟨by rfl, by rfl, h.1.mp (by rfl), h.2⟩

/-- C18: for every two frames that `Response.Parse` accepts on their own,
their concatenation splits into more than six tokens, `Response.Parse`
rejects it, and the iteration of `watch` that reads the two frames at once
returns the error without touching the table or any channel. -/
theorem C18_two_frames_in_one_read (rsp1 rsp2 rsp : Response) (f1 f2 : GoString) (e : Engine)
    (h1 : (Response.Parse rsp1 f1).2 = none) (h2 : (Response.Parse rsp2 f2).2 = none) :
    7 ≤ (frameTokens (f1 ++ f2)).length ∧
      (Response.Parse rsp (f1 ++ f2)).2 =
        some (.errorString (lit "failed to parse response: " ++ (f1 ++ f2))) ∧
      watchIteration e (f1 ++ f2, none) =
        some (e, some (.errorString (lit "failed to parse response: " ++ (f1 ++ f2)))) := by
  have t1 := ((Response.Parse_error_eq_none_iff rsp1 f1).mp h1).1
  have t2 := ((Response.Parse_error_eq_none_iff rsp2 f2).mp h2).1
  have hsep : lit "III" ≠ [] := by rw [lit_III]; exact List.cons_ne_nil _ _
  have hb : stringsIndex (lit "III") f2 ≠ none :=
    stringsIndex_ne_none_of_tokens (lit "III") f2 (by unfold frameTokens at t2; omega)
  have hlen := genSplit_append_length (lit "III") f2 hsep hb f1.length f1 (f1 ++ f2).length
    (Nat.le_refl _) (Nat.le_refl _)
  have h7 : 7 ≤ (frameTokens (f1 ++ f2)).length := by
    unfold frameTokens stringsSplit at *
    omega
  have hne : (stringsSplit (f1 ++ f2) (lit "III")).length ≠ 6 := by
    unfold frameTokens at h7
    omega
  have hparse : ∀ r : Response, Response.Parse r (f1 ++ f2) =
      (r, some (.errorString (lit "failed to parse response: " ++ (f1 ++ f2)))) := by
    intro r
    unfold Response.Parse
    dsimp only
    rw [if_pos hne]
  refine ⟨h7, by rw [hparse], ?_⟩
  unfold watchIteration
  simp only [hparse]

/-- Witness of C18 at the accepted frame with length 25 read twice. -/
theorem C18_two_frames_in_one_read_witness :
    (Response.Parse Response.zero exampleFrame25).2 = none ∧
      7 ≤ (frameTokens (exampleFrame25 ++ exampleFrame25)).length ∧
      watchIteration Engine.init (exampleFrame25 ++ exampleFrame25, none) =
        some (Engine.init, some (.errorString
          (lit "failed to parse response: " ++ (exampleFrame25 ++ exampleFrame25)))) := by
  have h := C18_two_frames_in_one_read Response.zero Response.zero Response.zero
    exampleFrame25 exampleFrame25 Engine.init (by rfl) (by rfl)
  exact ⟨by rfl, h.1, h.2.2⟩

/-! ## Encoding and decoding a command -/

/-- The numeral of a number consists of decimal digits. -/
theorem natDigitsAux_digits (fuel : Nat) :
    ∀ (n : Nat) (acc : List Nat), (∀ c ∈ acc, isDigit c = true) →
      ∀ c ∈ natDigitsAux fuel n acc, isDigit c = true := by
  induction fuel with
  | zero => intro n acc h c hc; exact h c hc
  | succ fuel ih =>
    intro n acc h c hc
    unfold natDigitsAux at hc
    by_cases h10 : n < 10
    · rw [if_pos h10] at hc
      rcases List.mem_cons.mp hc with hc | hc
      · subst hc
        simp only [isDigit, Bool.and_eq_true, decide_eq_true_eq]
        omega
      · exact h c hc
    · rw [if_neg h10] at hc
      refine ih (n / 10) _ ?_ c hc
      intro d hd
      rcases List.mem_cons.mp hd with hd | hd
      · subst hd
        simp only [isDigit, Bool.and_eq_true, decide_eq_true_eq]
        omega
      · exact h d hd

/-- The numeral of a number is not empty. -/
theorem natDigitsAux_ne_nil (fuel : Nat) :
    ∀ (n : Nat) (acc : List Nat), (acc ≠ [] ∨ fuel ≠ 0) → natDigitsAux fuel n acc ≠ [] := by
  induction fuel with
  | zero =>
    intro n acc h
    rcases h with h | h
    · exact h
    · exact absurd rfl h
  | succ fuel ih =>
    intro n acc _
    unfold natDigitsAux
    by_cases h10 : n < 10
    · rw [if_pos h10]; exact List.cons_ne_nil _ _
    · rw [if_neg h10]
      exact ih (n / 10) _ (Or.inl (List.cons_ne_nil _ _))

theorem fmtNat_digits (n : Nat) : ∀ c ∈ fmtNat n, isDigit c = true :=
  natDigitsAux_digits (n + 1) n [] (by simp)

theorem fmtNat_ne_nil (n : Nat) : fmtNat n ≠ [] :=
  natDigitsAux_ne_nil (n + 1) n [] (Or.inr (Nat.succ_ne_zero n))

/-- `Atoi` on a non-empty string of digits. -/
theorem Atoi_digits (ds : List Nat) (hne : ds ≠ []) (hd : ∀ c ∈ ds, isDigit c = true)
    (hr : decimalValue ds < 2 ^ 63) : Atoi ds = some (decimalValue ds : Int) := by
  cases ds with
  | nil => exact absurd rfl hne
  | cons d rest =>
    have hd0 : isDigit d = true := hd d (List.mem_cons_self d rest)
    have h45 : d ≠ 45 := by
      intro h; subst h; exact absurd hd0 (by decide)
    have h43 : d ≠ 43 := by
      intro h; subst h; exact absurd hd0 (by decide)
    have hall : (d :: rest).all isDigit = true := List.all_eq_true.mpr hd
    have hb43 : (some d == some 43) = false := by simp [h43]
    have hb45 : (some d == some 45) = false := by simp [h45]
    unfold Atoi
    simp only [List.head?_cons, hb43, hb45, Bool.false_eq_true, if_false, List.isEmpty_cons, hall,
      Bool.not_true, Bool.or_self, hr, if_true]

/-- `Atoi` on a minus sign followed by a non-empty string of digits. -/
theorem Atoi_neg_digits (ds : List Nat) (hne : ds ≠ []) (hd : ∀ c ∈ ds, isDigit c = true)
    (hr : decimalValue ds ≤ 2 ^ 63) : Atoi (45 :: ds) = some (-(decimalValue ds : Int)) := by
  have hall : ds.all isDigit = true := List.all_eq_true.mpr hd
  have hemp : ds.isEmpty = false := by
    cases ds with
    | nil => exact absurd rfl hne
    | cons _ _ => rfl
  have hb45 : (some 45 == some 45) = true := by decide
  unfold Atoi
  simp only [List.head?_cons, hb45, Bool.true_or, if_true, List.tail_cons, hemp,
    hall, Bool.not_true, Bool.or_self, Bool.false_eq_true, if_false, hr]

/-- `Atoi` reads back what `%d` wrote, for every value of a Go `int`. -/
theorem Atoi_fmtInt (i : Int) (h : isInt64 i) : Atoi (fmtInt i) = some i := by
  unfold isInt64 at h
  unfold fmtInt
  by_cases hneg : i < 0
  · rw [if_pos hneg, Atoi_neg_digits _ (fmtNat_ne_nil _) (fmtNat_digits _)]
    · rw [decimalValue_fmtNat]
      congr 1
      omega
    · rw [decimalValue_fmtNat]
      have : (i.natAbs : Int) ≤ 2 ^ 63 := by omega
      exact_mod_cast this
  · rw [if_neg hneg, Atoi_digits _ (fmtNat_ne_nil _) (fmtNat_digits _)]
    · rw [decimalValue_fmtNat]
      congr 1
      omega
    · rw [decimalValue_fmtNat]
      have : (i.natAbs : Int) < 2 ^ 63 := by omega
      exact_mod_cast this

/-- No byte of the numeral of an `int` is the letter `I`. -/
theorem fmtInt_no_I (i : Int) : ∀ c ∈ fmtInt i, c ≠ 73 := by
  intro c hc h
  subst h
  unfold fmtInt at hc
  split at hc
  · rcases List.mem_cons.mp hc with h | h
    · exact absurd h (by decide)
    · exact absurd (fmtNat_digits _ 73 h) (by decide)
  · exact absurd (fmtNat_digits _ 73 hc) (by decide)

/-- A string without the letter `I` neither contains "III" nor ends in `I`. -/
theorem no_I_token (t : GoString) (h : ∀ c ∈ t, c ≠ 73) :
    ¬ [73, 73, 73] <:+: t ∧ t.getLast? ≠ some 73 := by
  constructor
  · intro hi
    exact h 73 (hi.subset (List.mem_cons_self 73 _)) rfl
  · intro hl
    exact h 73 (List.mem_of_getLast?_eq_some hl) rfl

/-- A token that neither contains "III" nor ends in `I` is cut off exactly
at the separator that follows it. -/
theorem stringsIndex_token (rest : GoString) :
    ∀ t : GoString, ¬ [73, 73, 73] <:+: t → t.getLast? ≠ some 73 →
      stringsIndex [73, 73, 73] (t ++ ([73, 73, 73] ++ rest)) = some t.length := by
  intro t
  induction t with
  | nil =>
    intro _ _
    simp [stringsIndex, List.isPrefixOf]
  | cons a t ih =>
    intro hinf hlast
    have hinf' : ¬ [73, 73, 73] <:+: t := fun h => hinf (h.trans (List.suffix_cons a t).isInfix)
    have hlast' : t.getLast? ≠ some 73 := by
      cases t with
      | nil => simp
      | cons b t => simpa [List.getLast?_cons_cons] using hlast
    have hnp : ([73, 73, 73] : GoString).isPrefixOf (a :: (t ++ ([73, 73, 73] ++ rest))) = false := by
      by_cases ha : a = 73
      · subst ha
        cases t with
        | nil => simp at hlast
        | cons b t =>
          by_cases hb : b = 73
          · subst hb
            cases t with
            | nil => simp at hlast
            | cons c t =>
              by_cases hc : c = 73
              · subst hc
                exact absurd (List.prefix_append [73, 73, 73] t).isInfix hinf
              · simp [List.isPrefixOf, Ne.symm hc]
          · simp [List.isPrefixOf, Ne.symm hb]
      · simp [List.isPrefixOf, Ne.symm ha]
    rw [List.cons_append]
    unfold stringsIndex
    rw [hnp, ih hinf' hlast']
    simp

/-- The split of a token followed by the separator and a rest. -/
theorem stringsSplit_token (t rest : GoString) (hinf : ¬ [73, 73, 73] <:+: t)
    (hlast : t.getLast? ≠ some 73) :
    stringsSplit (t ++ ([73, 73, 73] ++ rest)) [73, 73, 73] =
      t :: stringsSplit rest [73, 73, 73] := by
  unfold stringsSplit
  have hlen : (t ++ ([73, 73, 73] ++ rest)).length = (t.length + 2 + rest.length) + 1 := by
    simp only [List.length_append, List.length_cons, List.length_nil]
    omega
  rw [hlen]
  conv_lhs => unfold genSplit
  rw [stringsIndex_token rest t hinf hlast]
  simp only [List.length_cons, List.length_nil]
  have htake : (t ++ ([73, 73, 73] ++ rest)).take t.length = t := List.take_left' rfl
  have hdrop : (t ++ ([73, 73, 73] ++ rest)).drop (t.length + (0 + 1 + 1 + 1)) = rest := by
    rw [← List.append_assoc]
    exact List.drop_left' (by simp)
  rw [htake, hdrop]
  rw [genSplit_bound_irrelevant [73, 73, 73] (List.cons_ne_nil _ _) (t.length + 2 + rest.length)
    rest.length rest (by omega) (Nat.le_refl _)]

/-- The six tokens of an encoded command. -/
theorem frameTokens_String (cmd : Command) (hinf : ¬ lit "III" <:+: cmd.Message)
    (hlast : cmd.Message.getLast? ≠ some 73) :
    frameTokens cmd.String =
      [lit "/f/b", fmtInt cmd.Id, fmtInt cmd.Typ, fmtInt cmd.Len, cmd.Message, lit "/b/f"] := by
  rw [lit_III] at hinf
  have e1 : lit "/f/bIII" = lit "/f/b" ++ [73, 73, 73] := by rfl
  have e2 : lit "III/b/f" = [73, 73, 73] ++ lit "/b/f" := by rfl
  have e3 : stringsSplit (lit "/b/f") [73, 73, 73] = [lit "/b/f"] := by rfl
  have h0 : ∀ c ∈ lit "/f/b", c ≠ 73 := by decide
  unfold frameTokens Command.String sprintfCommand
  rw [lit_III, e1, e2]
  simp only [List.append_assoc]
  rw [stringsSplit_token _ _ (no_I_token _ h0).1 (no_I_token _ h0).2,
    stringsSplit_token _ _ (no_I_token _ (fmtInt_no_I _)).1 (no_I_token _ (fmtInt_no_I _)).2,
    stringsSplit_token _ _ (no_I_token _ (fmtInt_no_I _)).1 (no_I_token _ (fmtInt_no_I _)).2,
    stringsSplit_token _ _ (no_I_token _ (fmtInt_no_I _)).1 (no_I_token _ (fmtInt_no_I _)).2,
    stringsSplit_token _ _ hinf hlast, e3]

/-- C16: for every Command whose fields are Go `int`s, whose `Len` is the
byte length of its `Message`, and whose `Message` neither contains the
delimiter "III" nor ends with the character "I", `Response.Parse` of
`String()` succeeds and yields the Id, Type, Len and Message of the
command. -/
theorem C16_encode_then_decode (rsp : Response) (cmd : Command)
    (hid : isInt64 cmd.Id) (htp : isInt64 cmd.Typ) (hrange : isInt64 cmd.Len)
    (hlen : cmd.Len = (cmd.Message.length : Int))
    (hinf : ¬ lit "III" <:+: cmd.Message) (hlast : cmd.Message.getLast? ≠ some 73) :
    Response.Parse rsp cmd.String = (cmd, none) := by
  have htok := frameTokens_String cmd hinf hlast
  unfold frameTokens at htok
  unfold Response.Parse
  dsimp only
  rw [htok]
  simp only [List.length_cons, List.length_nil, List.getD_cons_succ, List.getD_cons_zero,
    Atoi_fmtInt _ hid, Atoi_fmtInt _ htp, Atoi_fmtInt _ hrange, len]
  obtain ⟨id, tp, n, msg⟩ := cmd
  simp only at hlen
  subst hlen
  simp

/-- Witness of C16 at the command `NewQueryAngles()` with the draw 7. -/
theorem C16_encode_then_decode_witness :
    (NewQueryAngles 7).String = lit "/f/bIII7III377III25IIIGetActualJointPosDegree()III/b/f" ∧
      Response.Parse Response.zero (NewQueryAngles 7).String = (NewQueryAngles 7, none) :=
  ⟨by rfl,
    C16_encode_then_decode Response.zero (NewQueryAngles 7) (by decide) (by decide) (by decide)
      (by rfl) (by decide) (by decide)⟩

/-! ## The table of pending requests -/

/-- The channel of an index within `chans`, after replacing that channel. -/
theorem Engine.chan_setChan (e : Engine) (ch : Nat) (c : Chan) (h : ch < e.chans.length) :
    (e.setChan ch c).chan ch = c := by
  simp [Engine.setChan, Engine.chan, List.getD_eq_getElem?_getD, List.getElem?_set, h]

/-- Neither `close`, nor a send, nor replacing a channel touches the map. -/
theorem Engine.close_requests (e : Engine) (ch : Nat) : (e.close ch).requests = e.requests := by
  unfold Engine.close Engine.setChan
  split <;> rfl

theorem Engine.send_requests (e e1 : Engine) (ch : Nat) (v : GoString)
    (h : e.send ch v = some e1) : e1.requests = e.requests := by
  unfold Engine.send Engine.setChan at h
  split at h
  · cases h; rfl
  · split at h
    · cases h
    · cases h; rfl

/-- What the registration does: the new channel is the last one, it is
empty and open, and the map sends `id` to it and is unchanged elsewhere. -/
theorem Engine.register_spec (e : Engine) (id : Int) :
    (e.register id).2 = e.chans.length ∧
      (e.register id).1.requests id = some e.chans.length ∧
      (∀ j, j ≠ id → (e.register id).1.requests j = e.requests j) ∧
      (e.register id).1.chan e.chans.length = ⟨[], false⟩ ∧
      (e.register id).1.chans.length = e.chans.length + 1 ∧
      (e.register id).1.panicked = e.panicked := by
  refine ⟨rfl, ?_, ?_, ?_, ?_, rfl⟩
  · simp [Engine.register, Engine.makeChan]
  · intro j hj
    simp [Engine.register, Engine.makeChan, Function.update, hj]
  · simp [Engine.register, Engine.makeChan, Engine.chan, List.getD_eq_getElem?_getD]
  · simp [Engine.register, Engine.makeChan]

/-- What the locked section of the timeout path does: the entry of `id` is
gone, and the program panics exactly when the channel was closed already. -/
theorem Engine.timeoutSection_spec (e : Engine) (id : Int) (ch : Nat) :
    (e.timeoutSection id ch).requests id = none ∧
      (∀ j, j ≠ id → (e.timeoutSection id ch).requests j = e.requests j) ∧
      ((e.chan ch).closed = true → (e.timeoutSection id ch).panicked = true) ∧
      ((e.chan ch).closed = false → (e.timeoutSection id ch).panicked = e.panicked) := by
  unfold Engine.timeoutSection
  rw [Engine.close_requests]
  refine ⟨by simp [Engine.delete], fun j hj => by simp [Engine.delete, Function.update, hj], ?_, ?_⟩
  · intro h
    have : ((e.delete id).chan ch).closed = true := h
    simp [Engine.close, this]
  · intro h
    have : ((e.delete id).chan ch).closed = false := h
    unfold Engine.close
    rw [if_neg (by rw [this]; exact Bool.false_ne_true)]
    rfl

/-- A delivery for an id that is not a key changes nothing. -/
theorem Engine.deliver_of_not_key (e : Engine) (rsp : Response) (h : e.requests rsp.Id = none) :
    e.deliver rsp = some e := by
  unfold Engine.deliver
  rw [h]

/-- A delivery leaves every key but its own as it was. -/
theorem Engine.deliver_requests (e e1 : Engine) (rsp : Response) (id : Int)
    (h : e.deliver rsp = some e1) (hid : id ≠ rsp.Id) : e1.requests id = e.requests id := by
  unfold Engine.deliver at h
  cases hk : e.requests rsp.Id with
  | none => rw [hk] at h; cases h; rfl
  | some ch =>
    rw [hk] at h
    simp only at h
    cases hs : e.send ch rsp.Message with
    | none => rw [hs] at h; cases h
    | some e2 =>
      rw [hs] at h
      simp only at h
      have h2 := Engine.send_requests e e2 ch rsp.Message hs
      split at h
      · cases h; rw [h2]
      · split at h
        · cases h; rw [Engine.close_requests, h2]
        · cases h
          simp [Engine.delete, Engine.close_requests, h2, Function.update, hid]

/-- A delivery to an open, empty channel: the payload is in the buffer, the
channel is closed and the entry is gone. -/
theorem Engine.deliver_of_key (e : Engine) (rsp : Response) (ch : Nat)
    (hk : e.requests rsp.Id = some ch) (hch : ch < e.chans.length)
    (hc : e.chan ch = ⟨[], false⟩) (hp : e.panicked = false) :
    ∃ e1, e.deliver rsp = some e1 ∧ e1.chan ch = ⟨[rsp.Message], true⟩ ∧
      e1.requests rsp.Id = none ∧ e1.panicked = false := by
  have hs : e.send ch rsp.Message = some (e.setChan ch ⟨[rsp.Message], false⟩) := by
    simp [Engine.send, hc]
  have hc1 : (e.setChan ch ⟨[rsp.Message], false⟩).chan ch = ⟨[rsp.Message], false⟩ :=
    Engine.chan_setChan e ch _ hch
  have hp1 : (e.setChan ch ⟨[rsp.Message], false⟩).panicked = false := hp
  have hcl : (e.setChan ch ⟨[rsp.Message], false⟩).close ch =
      (e.setChan ch ⟨[rsp.Message], false⟩).setChan ch ⟨[rsp.Message], true⟩ := by
    simp [Engine.close, hc1]
  have hlen : ch < (e.setChan ch ⟨[rsp.Message], false⟩).chans.length := by
    simpa [Engine.setChan] using hch
  refine ⟨((e.setChan ch ⟨[rsp.Message], false⟩).setChan ch ⟨[rsp.Message], true⟩).delete rsp.Id,
    ?_, ?_, ?_, ?_⟩
  · unfold Engine.deliver
    rw [hk]
    simp only [hs, hp1, hcl]
    simp [Engine.setChan, hp]
  · have := Engine.chan_setChan (e.setChan ch ⟨[rsp.Message], false⟩) ch ⟨[rsp.Message], true⟩ hlen
    simpa [Engine.delete, Engine.chan] using this
  · simp [Engine.delete]
  · simpa [Engine.delete, Engine.setChan] using hp

/-- The steps of `request` one by one. -/
theorem requestStep_register (cmd : Command) (e : Engine) (hp : e.panicked = false) :
    requestStep cmd .register (.start, e) =
      some (.registered e.chans.length, (e.register cmd.Id).1) := by
  simp [requestStep, hp, Engine.register, Engine.makeChan]

theorem requestStep_write (cmd : Command) (e : Engine) (ch : Nat) (hp : e.panicked = false) :
    requestStep cmd (.write none) (.registered ch, e) = some (.waiting ch, e) ∧
      ∀ err, requestStep cmd (.write (some err)) (.registered ch, e) =
        some (.returned [] (some err), e) := by
  simp [requestStep, hp]

theorem requestStep_timer (cmd : Command) (e : Engine) (ch : Nat) (hp : e.panicked = false) :
    requestStep cmd .timer (.waiting ch, e) = some (.timerTaken ch, e) := by
  simp [requestStep, hp]

theorem requestStep_timeoutSection (cmd : Command) (e : Engine) (ch : Nat)
    (hp : e.panicked = false) :
    requestStep cmd .timeoutSection (.timerTaken ch, e) =
      if (e.timeoutSection cmd.Id ch).panicked then some (.crashed, e.timeoutSection cmd.Id ch)
      else some (.returned [] (some timeoutError), e.timeoutSection cmd.Id ch) := by
  simp [requestStep, hp]

theorem requestStep_deliver (cmd : Command) (e : Engine) (pc : Pc) (rsp : Response)
    (hp : e.panicked = false) :
    requestStep cmd (.deliver rsp) (pc, e) = (e.deliver rsp).map (fun e1 => (pc, e1)) := by
  cases pc <;> simp [requestStep, hp]

/-- C11: in the schedule model of `request` and `watch`, a call of
`request(cmd)` that runs into its timeout returns the error "timeout" and
leaves `cmd.Id` out of the table, so that a response with that id arriving
afterwards changes nothing; whenever the timeout section of `request`
returns, in any state, it returns that error with `cmd.Id` no longer a key;
and a delivery step for a response whose id is not a key leaves the table
and every channel as they were. -/
theorem C11_timeout_removes_registration (cmd : Command) (e : Engine)
    (hp : e.panicked = false) :
    (∃ e1, runSchedule cmd [.register, .write none, .timer, .timeoutSection] (.start, e) =
          some (.returned [] (some timeoutError), e1) ∧
        e1.requests cmd.Id = none ∧
        ∀ tp n msg, runSchedule cmd [.deliver ⟨cmd.Id, tp, n, msg⟩]
            (.returned [] (some timeoutError), e1) =
          some (.returned [] (some timeoutError), e1)) ∧
      (∀ resChan pc1 e1,
        requestStep cmd .timeoutSection (.timerTaken resChan, e) = some (pc1, e1) →
          e1.requests cmd.Id = none ∧
          ∀ res err, pc1 = .returned res err → res = [] ∧ err = some timeoutError) ∧
      (∀ rsp pc, e.requests rsp.Id = none →
        e.deliver rsp = some e ∧ requestStep cmd (.deliver rsp) (pc, e) = some (pc, e)) := by
  obtain ⟨-, -, -, hrc, -, hrp⟩ := Engine.register_spec e cmd.Id
  have hts := Engine.timeoutSection_spec (e.register cmd.Id).1 cmd.Id e.chans.length
  have hp1 : (e.register cmd.Id).1.panicked = false := by rw [hrp, hp]
  have hp2 : ((e.register cmd.Id).1.timeoutSection cmd.Id e.chans.length).panicked = false := by
    rw [hts.2.2.2 (by rw [hrc]), hp1]
  refine ⟨⟨(e.register cmd.Id).1.timeoutSection cmd.Id e.chans.length, ?_, hts.1, ?_⟩, ?_, ?_⟩
  · simp only [runSchedule, requestStep_register cmd e hp,
      (requestStep_write cmd _ _ hp1).1, requestStep_timer cmd _ _ hp1,
      requestStep_timeoutSection cmd _ _ hp1, hp2, Bool.false_eq_true, if_false]
  · intro tp n msg
    simp only [runSchedule, requestStep_deliver cmd _ _ _ hp2]
    rw [Engine.deliver_of_not_key _ ⟨cmd.Id, tp, n, msg⟩ hts.1]
    rfl
  · intro resChan pc1 e1 h
    rw [requestStep_timeoutSection cmd e resChan hp] at h
    have hk := (Engine.timeoutSection_spec e cmd.Id resChan).1
    split at h
    · cases h
      exact ⟨hk, fun res err hpc => Pc.noConfusion hpc⟩
    · cases h
      refine ⟨hk, fun res err hpc => ?_⟩
      cases hpc
      exact ⟨rfl, rfl⟩
  · intro rsp pc hk
    refine ⟨Engine.deliver_of_not_key e rsp hk, ?_⟩
    rw [requestStep_deliver cmd e pc rsp hp, Engine.deliver_of_not_key e rsp hk]
    rfl

/-- Witness of C11 at the fresh table and the command `NewQueryAngles()`
with the draw 7. -/
theorem C11_timeout_removes_registration_witness :
    Engine.init.panicked = false ∧
      ∃ e1, runSchedule (NewQueryAngles 7) [.register, .write none, .timer, .timeoutSection]
          (.start, Engine.init) = some (.returned [] (some timeoutError), e1) ∧
        e1.requests 7 = none := by
  obtain ⟨e1, h1, h2, -⟩ := (C11_timeout_removes_registration (NewQueryAngles 7) Engine.init rfl).1
  exact ⟨rfl, e1, h1, h2⟩

/-- C12 (the code at the failing schedule): the `select` of `request(cmd)`
takes the timer case; before the timeout path takes the lock, `watch`
delivers a response with the id of `cmd` (sends it, closes the channel,
deletes the entry); the timeout path then closes the channel a second time
and the program panics: the channel has seen both the delivery and the
timeout. -/
theorem C12_delivery_then_timeout_panics (cmd : Command) (tp n : Int) (msg : GoString) :
    ∃ e1, runSchedule cmd
          [.register, .write none, .timer, .deliver ⟨cmd.Id, tp, n, msg⟩, .timeoutSection]
          (.start, Engine.init) = some (.crashed, e1) ∧
      e1.chan 0 = ⟨[msg], true⟩ ∧ e1.requests cmd.Id = none ∧ e1.panicked = true := by
  obtain ⟨-, hrk, -, hrc, hrl, hrp⟩ := Engine.register_spec Engine.init cmd.Id
  have hp0 : Engine.init.panicked = false := rfl
  have hp1 : (Engine.init.register cmd.Id).1.panicked = false := hrp
  have hl0 : Engine.init.chans.length = 0 := rfl
  rw [hl0] at hrk hrc hrl
  obtain ⟨e2, hdel, hc2, -, hp2⟩ := Engine.deliver_of_key (Engine.init.register cmd.Id).1
    ⟨cmd.Id, tp, n, msg⟩ 0 hrk (by rw [hrl]; decide) hrc hp1
  have hts := Engine.timeoutSection_spec e2 cmd.Id 0
  have hp3 : (e2.timeoutSection cmd.Id 0).panicked = true := hts.2.2.1 (by rw [hc2])
  refine ⟨e2.timeoutSection cmd.Id 0, ?_, ?_, hts.1, hp3⟩
  · simp only [runSchedule, requestStep_register cmd _ hp0, hl0,
      (requestStep_write cmd _ _ hp1).1, requestStep_timer cmd _ _ hp1,
      requestStep_deliver cmd _ _ _ hp1, hdel, Option.map_some',
      requestStep_timeoutSection cmd _ _ hp2, hp3, if_true]
  · have hcl : ((e2.delete cmd.Id).chan 0).closed = true := by
      show (e2.chan 0).closed = true
      rw [hc2]
    unfold Engine.timeoutSection Engine.close
    rw [if_pos hcl]
    exact hc2

/-- C19: in the schedule model of `request`, when the write to the socket
fails `request` returns that error and the table still maps `cmd.Id` to the
channel made for this call, which is open and empty; and a step removes a
key from the table only if it is the timeout section of this call (for
`cmd.Id`) or a delivery of `watch` for that key. -/
theorem C19_write_failure_keeps_registration (cmd : Command) (e : Engine) (err : GoError)
    (hp : e.panicked = false) :
    (∃ e1, runSchedule cmd [.register, .write (some err)] (.start, e) =
          some (.returned [] (some err), e1) ∧
        e1.requests cmd.Id = some e.chans.length ∧ e1.chan e.chans.length = ⟨[], false⟩) ∧
      (∀ ev pc e0 pc1 e1 id, requestStep cmd ev (pc, e0) = some (pc1, e1) →
        e0.requests id ≠ none → e1.requests id = none →
          (ev = .timeoutSection ∧ id = cmd.Id) ∨ ∃ rsp, ev = .deliver rsp ∧ rsp.Id = id) := by
  obtain ⟨-, hrk, -, hrc, -, hrp⟩ := Engine.register_spec e cmd.Id
  have hp1 : (e.register cmd.Id).1.panicked = false := by rw [hrp, hp]
  refine ⟨⟨(e.register cmd.Id).1, ?_, hrk, hrc⟩, ?_⟩
  · simp only [runSchedule, requestStep_register cmd e hp, (requestStep_write cmd _ _ hp1).2]
  · intro ev pc e0 pc1 e1 id h hin hout
    by_cases hp0 : e0.panicked = true
    · simp [requestStep, hp0] at h
    · have hp0' : e0.panicked = false := by simpa using hp0
      cases ev with
      | register =>
        cases pc <;> simp [requestStep, hp0'] at h
        obtain ⟨-, rfl⟩ := h
        have hs := Engine.register_spec e0 cmd.Id
        by_cases hid : id = cmd.Id
        · subst hid
          rw [hs.2.1] at hout
          exact Option.noConfusion hout
        · rw [hs.2.2.1 id hid] at hout
          exact absurd hout hin
      | write werr =>
        cases werr <;> cases pc <;> simp [requestStep, hp0'] at h
        all_goals
          obtain ⟨-, rfl⟩ := h
          exact absurd hout hin
      | receive =>
        cases pc <;> simp [requestStep, hp0'] at h
        rename_i ch
        split at h
        · simp only [Option.some.injEq, Prod.mk.injEq] at h
          obtain ⟨-, rfl⟩ := h
          exact absurd hout hin
        · split at h
          · simp only [Option.some.injEq, Prod.mk.injEq] at h
            obtain ⟨-, rfl⟩ := h
            exact absurd hout hin
          · cases h
      | timer =>
        cases pc <;> simp [requestStep, hp0'] at h
        obtain ⟨-, rfl⟩ := h
        exact absurd hout hin
      | timeoutSection =>
        left
        refine ⟨rfl, ?_⟩
        cases pc <;> simp [requestStep, hp0'] at h
        rename_i ch
        have hs := Engine.timeoutSection_spec e0 cmd.Id ch
        by_contra hid
        have hsame := hs.2.1 id hid
        split at h
        all_goals
          simp only [Option.some.injEq, Prod.mk.injEq] at h
          obtain ⟨-, rfl⟩ := h
          rw [hsame] at hout
          exact absurd hout hin
      | deliver rsp =>
        right
        refine ⟨rsp, rfl, ?_⟩
        rw [requestStep_deliver cmd e0 pc rsp hp0'] at h
        cases hd : e0.deliver rsp with
        | none => rw [hd] at h; cases h
        | some e2 =>
          rw [hd] at h
          simp only [Option.map_some', Option.some.injEq, Prod.mk.injEq] at h
          obtain ⟨-, rfl⟩ := h
          by_contra hid
          have := Engine.deliver_requests e0 e2 rsp id hd (fun h => hid h.symm)
          rw [this] at hout
          exact absurd hout hin

/-- Witness of C19 at the fresh table, the command `NewQueryAngles()` with
the draw 7 and the write error "broken pipe". -/
theorem C19_write_failure_keeps_registration_witness :
    Engine.init.panicked = false ∧
      ∃ e1, runSchedule (NewQueryAngles 7) [.register, .write (some (.errorString (lit "broken pipe")))]
          (.start, Engine.init) =
            some (.returned [] (some (.errorString (lit "broken pipe"))), e1) ∧
        e1.requests 7 = some 0 ∧ e1.chan 0 = ⟨[], false⟩ := by
  obtain ⟨e1, h1, h2, h3⟩ := (C19_write_failure_keeps_registration (NewQueryAngles 7) Engine.init
    (.errorString (lit "broken pipe")) rfl).1
  exact ⟨rfl, e1, h1, h2, h3⟩

/-! ## The move operations -/

/-- A value in the closed interval is not NaN. -/
theorem inRange_ne_nan (v : float32) (h : inRange v = true) : v ≠ .nan := by
  intro hv
  subst hv
  exact absurd h (by decide)

/-- Angles that all lie in `[-90, 90]` pass `check`. -/
theorem JointsAngle.check_of_inRange (ja : JointsAngle)
    (h : ∀ i, inRange (ja.Values i) = true) : ja.check = true :=
  (JointsAngle.check_eq_true_iff_inRange ja (fun i => inRange_ne_nan _ (h i))).mpr h

/-- The tail of the move operations when its first request fails. -/
theorem moveTail_first_fails (rc : RobotController) (o : Oracle) (s : Run)
    (angles : JointsAngle) (poses : ArmPosition) (err : GoError)
    (h : (o.answer s.issued.length).2 = some err) :
    moveTail rc o s angles poses =
      (⟨s.issued ++ [NewQueryForwardKin angles (o.draw s.drawn)], s.drawn + 1⟩, some err) := by
  simp only [moveTail, Oracle.rand, Oracle.request, h]

/-- The tail of the move operations when its first request is answered and
the second fails. -/
theorem moveTail_second_fails (rc : RobotController) (o : Oracle) (s : Run)
    (angles : JointsAngle) (poses : ArmPosition) (err : GoError)
    (h1 : (o.answer s.issued.length).2 = none)
    (h2 : (o.answer (s.issued.length + 1)).2 = some err) :
    moveTail rc o s angles poses =
      (⟨s.issued ++ [NewQueryForwardKin angles (o.draw s.drawn),
          NewMoveJ angles ⟨(poses.toPosition.Parse (o.answer s.issued.length).1).1⟩
            rc.speed rc.acc rc.blendTime (o.draw (s.drawn + 1))], s.drawn + 1 + 1⟩,
        some err) := by
  simp only [moveTail, Oracle.rand, Oracle.request, h1, List.length_append, List.length_cons,
    List.length_nil, zero_add, h2, List.append_assoc, List.singleton_append]

/-- The tail of the move operations when both requests are answered: one
forward-kinematics query, one MoveJ command, and the result decided by the
acknowledgement. -/
theorem moveTail_answered (rc : RobotController) (o : Oracle) (s : Run)
    (angles : JointsAngle) (poses : ArmPosition)
    (h1 : (o.answer s.issued.length).2 = none)
    (h2 : (o.answer (s.issued.length + 1)).2 = none) :
    moveTail rc o s angles poses =
      (⟨s.issued ++ [NewQueryForwardKin angles (o.draw s.drawn),
          NewMoveJ angles ⟨(poses.toPosition.Parse (o.answer s.issued.length).1).1⟩
            rc.speed rc.acc rc.blendTime (o.draw (s.drawn + 1))], s.drawn + 1 + 1⟩,
        if (o.answer (s.issued.length + 1)).1 ≠ lit "1"
          then some (.errorString (o.answer (s.issued.length + 1)).1) else none) := by
  simp only [moveTail, Oracle.rand, Oracle.request, h1, List.length_append, List.length_cons,
    List.length_nil, zero_add, h2, List.append_assoc, List.singleton_append]
  split <;> rfl

/-- `MoveAnglesAbsolute` on a target that fails `check`: the error "invalid
position" and no request at all. -/
theorem MoveAnglesAbsolute_of_check_false (rc : RobotController) (o : Oracle) (s : Run)
    (p : Position) (h : JointsAngle.check ⟨p⟩ = false) :
    MoveAnglesAbsolute rc o s p = (s, some (.errorString (lit "invalid position"))) := by
  simp [MoveAnglesAbsolute, h]

/-- `MoveAnglesAbsolute` on a target that passes `check` is the common
tail. -/
theorem MoveAnglesAbsolute_of_check (rc : RobotController) (o : Oracle) (s : Run)
    (p : Position) (h : JointsAngle.check ⟨p⟩ = true) :
    MoveAnglesAbsolute rc o s p = moveTail rc o s ⟨p⟩ ⟨Position.zero⟩ := by
  simp [MoveAnglesAbsolute, h]

/-- `MoveAnglesRelative` when the current-angles query is answered and the
sum fails `check`: the query is the only request, the error is "invalid
position". -/
theorem MoveAnglesRelative_of_check_false (rc : RobotController) (o : Oracle) (s : Run)
    (delta : Position) (h1 : (o.answer s.issued.length).2 = none)
    (h : JointsAngle.check
      ⟨(Position.zero.Parse (o.answer s.issued.length).1).1.CalcSum delta⟩ = false) :
    MoveAnglesRelative rc o s delta =
      (⟨s.issued ++ [NewQueryAngles (o.draw s.drawn)], s.drawn + 1⟩,
        some (.errorString (lit "invalid position"))) := by
  simp only [MoveAnglesRelative, Oracle.rand, Oracle.request, h1, JointsAngle.moveAbsolute,
    JointsAngle.calcSum, h]
  simp

/-- `MoveAnglesRelative` when the current-angles query is answered and the
sum passes `check`: the common tail on the sum, whatever `Parse` said about
the answer. -/
theorem MoveAnglesRelative_of_check (rc : RobotController) (o : Oracle) (s : Run)
    (delta : Position) (h1 : (o.answer s.issued.length).2 = none)
    (h : JointsAngle.check
      ⟨(Position.zero.Parse (o.answer s.issued.length).1).1.CalcSum delta⟩ = true) :
    MoveAnglesRelative rc o s delta =
      moveTail rc o ⟨s.issued ++ [NewQueryAngles (o.draw s.drawn)], s.drawn + 1⟩
        ⟨(Position.zero.Parse (o.answer s.issued.length).1).1.CalcSum delta⟩
        ⟨Position.zero⟩ := by
  simp only [MoveAnglesRelative, Oracle.rand, Oracle.request, h1, JointsAngle.moveAbsolute,
    JointsAngle.calcSum, h]
  simp

/-- C14 (the code at the failing input): with every request answered,
`MoveAnglesAbsolute` on the target `{NaN, 0, 0, 0, 0, 0}`, and
`MoveAnglesRelative` with that delta when the current angles are read as
zeros, do not return "invalid position": each issues a forward-kinematics
query and a MoveJ command, and the MoveJ command carries NaN as first joint
angle, a value that does not lie in `[-90, 90]`. -/
theorem C14_MoveJ_carries_nan (rc : RobotController) :
    MoveAnglesAbsolute rc ackOracle Run.init nanAngles.toPosition =
        (⟨[NewQueryForwardKin nanAngles 0,
            NewMoveJ nanAngles ⟨Position.zero⟩ rc.speed rc.acc rc.blendTime 1], 2⟩, none) ∧
      (MoveAnglesRelative rc ackOracle Run.init nanAngles.toPosition).2 = none ∧
      ((MoveAnglesRelative rc ackOracle Run.init nanAngles.toPosition).1.issued.map
          (fun cmd => cmd.Typ)) = [TypeQuery, TypeQuery, TypeMoveJ] ∧
      (NewQueryForwardKin nanAngles 0).Message =
        lit "GetForwardKin(NaN,0.000000,0.000000,0.000000,0.000000,0.000000)" ∧
      inRange (nanAngles.Values 0) = false := by
  have hz : (Position.zero.Parse (lit "1")).1 = Position.zero := by rfl
  have hsum : JointsAngle.check
      ⟨(Position.zero.Parse (ackOracle.answer Run.init.issued.length).1).1.CalcSum
        nanAngles.toPosition⟩ = true := by rfl
  refine ⟨?_, ?_, ?_, by decide!, by rfl⟩
  · rw [MoveAnglesAbsolute_of_check rc ackOracle Run.init _ (by rfl),
      moveTail_answered rc ackOracle Run.init _ _ rfl rfl]
    simp [ackOracle, Run.init, hz, nanAngles]
  · rw [MoveAnglesRelative_of_check rc ackOracle Run.init _ rfl hsum,
      moveTail_answered rc ackOracle _ _ _ rfl rfl]
    simp [ackOracle]
  · rw [MoveAnglesRelative_of_check rc ackOracle Run.init _ rfl hsum,
      moveTail_answered rc ackOracle _ _ _ rfl rfl]
    simp [Run.init, NewQueryAngles, NewQueryForwardKin, NewMoveJ]

/-- C15: for every move whose target (for `MoveAnglesRelative`: the sum of
the angles read and the delta) passes the range check and whose requests
are all answered, `MoveAnglesAbsolute` and `MoveAnglesRelative` return nil
if and only if the acknowledgement of the MoveJ command is exactly "1", and
for any other acknowledgement they return an error whose text is that
acknowledgement. -/
theorem C15_acknowledgement_decides (rc : RobotController) (o : Oracle) (s : Run)
    (p : Position) :
    (JointsAngle.check ⟨p⟩ = true → (o.answer s.issued.length).2 = none →
        (o.answer (s.issued.length + 1)).2 = none →
        ((MoveAnglesAbsolute rc o s p).2 = none ↔
            (o.answer (s.issued.length + 1)).1 = lit "1") ∧
          ((o.answer (s.issued.length + 1)).1 ≠ lit "1" →
            (MoveAnglesAbsolute rc o s p).2 =
              some (.errorString (o.answer (s.issued.length + 1)).1))) ∧
      ((o.answer s.issued.length).2 = none →
        JointsAngle.check
          ⟨(Position.zero.Parse (o.answer s.issued.length).1).1.CalcSum p⟩ = true →
        (o.answer (s.issued.length + 1)).2 = none →
        (o.answer (s.issued.length + 1 + 1)).2 = none →
        ((MoveAnglesRelative rc o s p).2 = none ↔
            (o.answer (s.issued.length + 1 + 1)).1 = lit "1") ∧
          ((o.answer (s.issued.length + 1 + 1)).1 ≠ lit "1" →
            (MoveAnglesRelative rc o s p).2 =
              some (.errorString (o.answer (s.issued.length + 1 + 1)).1))) := by
  constructor
  · intro hc h1 h2
    rw [MoveAnglesAbsolute_of_check rc o s p hc, moveTail_answered rc o s _ _ h1 h2]
    by_cases hack : (o.answer (s.issued.length + 1)).1 = lit "1"
    · simp [hack]
    · simp [hack]
  · intro h0 hc h1 h2
    have h1' : (o.answer
        (Run.mk (s.issued ++ [NewQueryAngles (o.draw s.drawn)]) (s.drawn + 1)).issued.length).2 =
        none := by simpa using h1
    have h2' : (o.answer
        ((Run.mk (s.issued ++ [NewQueryAngles (o.draw s.drawn)]) (s.drawn + 1)).issued.length
          + 1)).2 = none := by simpa using h2
    rw [MoveAnglesRelative_of_check rc o s p h0 hc, moveTail_answered rc o _ _ _ h1' h2']
    simp only [List.length_append, List.length_cons, List.length_nil, zero_add]
    by_cases hack : (o.answer (s.issued.length + 1 + 1)).1 = lit "1"
    · simp [hack]
    · simp [hack]

/-- Witness of C15: in the environment of the example the relative move by
`{-10,10,0,0,0,0}` is acknowledged with "1" and returns nil; the absolute
move to the same target gets the pose "1,2,3,4,5,6" as acknowledgement of
its MoveJ command and returns that text as error. -/
theorem C15_acknowledgement_decides_witness :
    (MoveAnglesRelative exampleController exampleOracle Run.init exampleAngles.toPosition).2 =
        none ∧
      (MoveAnglesAbsolute exampleController exampleOracle Run.init exampleAngles.toPosition).2 =
        some (.errorString (lit "1,2,3,4,5,6")) := by
  have h := C15_acknowledgement_decides exampleController exampleOracle Run.init
    exampleAngles.toPosition
  exact ⟨(h.2 rfl (by decide!) rfl rfl).1.mpr rfl,
    (h.1 (by rfl) rfl rfl).2 (by decide)⟩

/-! ## What a failed Parse leaves behind -/

/-- The loop of `Parse` over a list of indices in two parts: when the first
part ends without error, the loop goes on with the second part. -/
theorem Position.parseLoop_append (nums : List GoString) (pre rest : List (Fin 6)) :
    ∀ p : Position, (Position.parseLoop nums pre p).2 = none →
      Position.parseLoop nums (pre ++ rest) p =
        Position.parseLoop nums rest (Position.parseLoop nums pre p).1 := by
  induction pre with
  | nil => intro p _; rfl
  | cons i pre ih =>
    intro p h
    rw [List.cons_append]
    rcases hpf : ParseFloat32 (nums.getD i.val []) with ⟨res, e⟩
    cases e with
    | some err =>
      simp only [Position.parseLoop, hpf] at h
      exact Option.noConfusion h
    | none =>
      simp only [Position.parseLoop, hpf] at h ⊢
      exact ih _ h

/-- The loop of `Parse` stops at an invalid field without storing
anything. -/
theorem Position.parseLoop_invalid_head (nums : List GoString) (i : Fin 6) (rest : List (Fin 6))
    (p : Position) (h : (ParseFloat32 (nums.getD i.val [])).2 ≠ none) :
    (Position.parseLoop nums (i :: rest) p).1 = p := by
  rcases hpf : ParseFloat32 (nums.getD i.val []) with ⟨res, e⟩
  cases e with
  | some err => simp only [Position.parseLoop, hpf]
  | none => rw [hpf] at h; exact absurd rfl h

theorem finRange_six_split (i0 : Fin 6) :
    List.finRange 6 = (List.finRange 6).take i0.val ++ i0 :: (List.finRange 6).drop (i0.val + 1) := by
  rw [finRange_six]
  fin_cases i0 <;> rfl

theorem mem_take_finRange_six : ∀ i0 j : Fin 6,
    j ∈ ([0, 1, 2, 3, 4, 5] : List (Fin 6)).take i0.val ↔ j < i0 := by
  decide

/-- What `Parse` leaves in the receiver when it fails: the receiver as it
was when the field count is not 6; otherwise the fields before the first
invalid one parsed and stored, the others as they were. -/
theorem Position.Parse_rejected (p : Position) (str : GoString) :
    ((positionFields str).length ≠ 6 → (p.Parse str).1 = p) ∧
      ((positionFields str).length = 6 → ∀ i0 : Fin 6,
        (∀ j, j < i0 → validField str j) → ¬ validField str i0 →
          ∀ j, (p.Parse str).1.Values j = if j < i0 then fieldValue str j else p.Values j) := by
  unfold Position.Parse validField fieldValue positionFields
  dsimp only
  constructor
  · intro h
    rw [if_pos h]
  · intro h i0 hpre hbad j
    rw [if_neg (not_not.mpr h), finRange_six_split i0]
    have hok := Position.parseLoop_ok (stringsSplit str (lit ","))
      ((List.finRange 6).take i0.val) p
      (fun i hi => hpre i ((mem_take_finRange_six i0 i).mp (by rw [← finRange_six]; exact hi)))
    rw [Position.parseLoop_append _ _ _ p hok.1, Position.parseLoop_invalid_head _ _ _ _ hbad,
      hok.2 j]
    have hiff : j ∈ (List.finRange 6).take i0.val ↔ j < i0 := by
      rw [finRange_six]; exact mem_take_finRange_six i0 j
    by_cases hj : j < i0
    · rw [if_pos hj, if_pos (hiff.mpr hj)]
    · rw [if_neg hj, if_neg (fun hm => hj (hiff.mp hm))]

/-- Among six fields of which one is invalid there is a first invalid
one. -/
theorem exists_first_invalid (str : GoString) (h : ∃ i, ¬ validField str i) :
    ∃ i0 : Fin 6, (∀ j, j < i0 → validField str j) ∧ ¬ validField str i0 := by
  classical
  have hN : ∃ k : Nat, ∃ hk : k < 6, ¬ validField str ⟨k, hk⟩ := by
    obtain ⟨i, hi⟩ := h
    exact ⟨i.val, i.isLt, hi⟩
  obtain ⟨hk, hbad⟩ := Nat.find_spec hN
  refine ⟨⟨Nat.find hN, hk⟩, fun j hj => ?_, hbad⟩
  by_contra hnot
  exact Nat.find_min hN (show j.val < Nat.find hN from hj) ⟨j.isLt, hnot⟩

/-- C20: in `MoveAnglesRelative`, when the current-angles query is answered
with a payload that `Position.Parse` rejects, the angles the operation goes
on with are what the failed parse left in the zero value: all zeros when the
field count is not 6, and otherwise the fields before the first invalid one
as parsed and zeros from there on; when these angles plus delta lie in
`[-90, 90]` and the two further requests are answered, the operation issues
the forward-kinematics query and the MoveJ command for that sum, and its
result is decided by the acknowledgement alone, not by the parse error. -/
theorem C20_parse_error_is_dropped (rc : RobotController) (o : Oracle) (s : Run)
    (d : Position) (hreq : (o.answer s.issued.length).2 = none)
    (hrej : (Position.zero.Parse (o.answer s.issued.length).1).2 ≠ none) :
    (((positionFields (o.answer s.issued.length).1).length ≠ 6 ∧
          ∀ j, (Position.zero.Parse (o.answer s.issued.length).1).1.Values j =
            float32.fin false 0) ∨
        ((positionFields (o.answer s.issued.length).1).length = 6 ∧ ∃ i0 : Fin 6,
          (∀ j, j < i0 → validField (o.answer s.issued.length).1 j) ∧
          ¬ validField (o.answer s.issued.length).1 i0 ∧
          ∀ j, (Position.zero.Parse (o.answer s.issued.length).1).1.Values j =
            if j < i0 then fieldValue (o.answer s.issued.length).1 j
            else float32.fin false 0)) ∧
      ((∀ i, inRange (((Position.zero.Parse (o.answer s.issued.length).1).1.CalcSum d).Values i)
            = true) →
        (o.answer (s.issued.length + 1)).2 = none →
        (o.answer (s.issued.length + 1 + 1)).2 = none →
        MoveAnglesRelative rc o s d =
          (⟨s.issued ++ [NewQueryAngles (o.draw s.drawn),
              NewQueryForwardKin
                ⟨(Position.zero.Parse (o.answer s.issued.length).1).1.CalcSum d⟩
                (o.draw (s.drawn + 1)),
              NewMoveJ ⟨(Position.zero.Parse (o.answer s.issued.length).1).1.CalcSum d⟩
                ⟨(Position.zero.Parse (o.answer (s.issued.length + 1)).1).1⟩
                rc.speed rc.acc rc.blendTime (o.draw (s.drawn + 1 + 1))],
            s.drawn + 1 + 1 + 1⟩,
            if (o.answer (s.issued.length + 1 + 1)).1 ≠ lit "1"
              then some (.errorString (o.answer (s.issued.length + 1 + 1)).1) else none)) := by
  have hrejected := Position.Parse_rejected Position.zero (o.answer s.issued.length).1
  refine ⟨?_, ?_⟩
  · by_cases h : (positionFields (o.answer s.issued.length).1).length = 6
    · right
      have hex : ∃ i, ¬ validField (o.answer s.issued.length).1 i := by
        by_contra hall
        have hall' : ∀ i, validField (o.answer s.issued.length).1 i := by
          intro i
          by_contra hi
          exact hall ⟨i, hi⟩
        exact hrej (Position.Parse_ok Position.zero _ h hall').1
      obtain ⟨i0, hpre, hbad⟩ := exists_first_invalid _ hex
      refine ⟨h, i0, hpre, hbad, fun j => ?_⟩
      rw [hrejected.2 h i0 hpre hbad j]
      rfl
    · left
      refine ⟨h, fun j => ?_⟩
      rw [hrejected.1 h]
      rfl
  · intro hrange h1 h2
    have hcheck := JointsAngle.check_of_inRange
      ⟨(Position.zero.Parse (o.answer s.issued.length).1).1.CalcSum d⟩ hrange
    have h1' : (o.answer
        (Run.mk (s.issued ++ [NewQueryAngles (o.draw s.drawn)]) (s.drawn + 1)).issued.length).2 =
        none := by simpa using h1
    have h2' : (o.answer
        ((Run.mk (s.issued ++ [NewQueryAngles (o.draw s.drawn)]) (s.drawn + 1)).issued.length
          + 1)).2 = none := by simpa using h2
    rw [MoveAnglesRelative_of_check rc o s d hreq hcheck, moveTail_answered rc o _ _ _ h1' h2']
    simp

/-- Witness of C20: the answer "5,6,oops" has three fields, `Parse` rejects
it and leaves zeros; with the delta `{-10,10,0,0,0,0}` the operation sends
the three requests and returns nil. -/
theorem C20_parse_error_is_dropped_witness :
    (Position.zero.Parse (lit "5,6,oops")).2 ≠ none ∧
      (∀ j, (Position.zero.Parse (lit "5,6,oops")).1.Values j = float32.fin false 0) ∧
      (MoveAnglesRelative exampleController garbledOracle Run.init exampleAngles.toPosition).2 =
        none ∧
      (MoveAnglesRelative exampleController garbledOracle Run.init
          exampleAngles.toPosition).1.issued.length = 3 := by
  have h := C20_parse_error_is_dropped exampleController garbledOracle Run.init
    exampleAngles.toPosition rfl (by decide)
  have hrun := h.2 (by decide!) rfl rfl
  refine ⟨by decide, ?_, ?_, ?_⟩
  · rcases h.1 with ⟨-, hz⟩ | ⟨h6, -⟩
    · exact hz
    · exact absurd h6 (by decide)
  · rw [hrun]
    rfl
  · rw [hrun]
    rfl

/-! ## Reading back what `%f` wrote -/

/-- Positional value of a digit string with its first digit split off. -/
theorem decimalValue_cons (d : Nat) (ds : List Nat) :
    decimalValue (d :: ds) = (d - 48) * 10 ^ ds.length + decimalValue ds := by
  have h := decimalValue_append [d] ds
  simp only [List.singleton_append] at h
  rw [h]
  simp [decimalValue]

/-- The digit loop of `readFloat` over a run of decimal digits: the mantissa
takes the digits in, and `dp - nd` goes down by one per digit. -/
theorem readMantissa_digits (t : GoString) :
    ∀ (ds : List Nat) (st : MantState), (∀ c ∈ ds, isDigit c = true) →
      (st.nd = 0 → st.mantissa = 0) →
      ∃ st1 : MantState, readMantissa false (ds ++ t) st = readMantissa false t st1 ∧
        st1.mantissa = st.mantissa * 10 ^ ds.length + decimalValue ds ∧
        st1.dp - (st1.nd : Int) = st.dp - (st.nd : Int) - (ds.length : Int) ∧
        st1.sawdot = st.sawdot ∧ st1.underscores = st.underscores ∧
        (st.sawdigits = true ∨ ds ≠ [] → st1.sawdigits = true) ∧
        (st1.nd = 0 → st1.mantissa = 0) := by
  intro ds
  induction ds with
  | nil =>
    intro st _ hinv
    refine ⟨st, rfl, by simp [decimalValue], by simp, rfl, rfl, fun h => ?_, hinv⟩
    rcases h with h | h
    · exact h
    · exact absurd rfl h
  | cons d ds ih =>
    intro st hd hinv
    have hd0 : isDigit d = true := hd d (List.mem_cons_self d ds)
    have h95 : d ≠ 95 := by intro h; subst h; exact absurd hd0 (by decide)
    have h46 : d ≠ 46 := by intro h; subst h; exact absurd hd0 (by decide)
    have hds : ∀ c ∈ ds, isDigit c = true := fun c hc => hd c (List.mem_cons_of_mem d hc)
    rw [List.cons_append]
    by_cases hz : d = 48 ∧ st.nd = 0
    · obtain ⟨st1, h1, h2, h3, h4, h5, h6, h7⟩ :=
        ih { st with sawdigits := true, dp := st.dp - 1 } hds hinv
      simp only at h2 h3 h4 h5 h6
      refine ⟨st1, ?_, ?_, ?_, h4, h5, fun _ => h6 (Or.inl trivial), h7⟩
      · rw [← h1]
        conv_lhs => unfold readMantissa
        rw [if_neg h95, if_neg h46, if_pos hd0, if_pos hz]
      · rw [h2, decimalValue_cons, hinv hz.2, hz.1]
        simp
      · rw [h3]
        simp only [List.length_cons, Nat.cast_add, Nat.cast_one]
        ring
    · obtain ⟨st1, h1, h2, h3, h4, h5, h6, h7⟩ :=
        ih { st with sawdigits := true, nd := st.nd + 1,
                     mantissa := st.mantissa * 10 + (d - 48) } hds
          (fun h => absurd h (Nat.succ_ne_zero _))
      simp only at h2 h3 h4 h5 h6
      refine ⟨st1, ?_, ?_, ?_, h4, h5, fun _ => h6 (Or.inl trivial), h7⟩
      · rw [← h1]
        conv_lhs => unfold readMantissa
        rw [if_neg h95, if_neg h46, if_pos hd0, if_neg hz]
        simp only [Bool.false_eq_true, if_false]
      · rw [h2, decimalValue_cons]
        simp only [List.length_cons]
        ring
      · rw [h3]
        simp only [List.length_cons, Nat.cast_add, Nat.cast_one]
        ring

/-- `lower` of a digit, of a point or of the zero byte is not the letter
`x`. -/
theorem lower_ne_x (c : Nat) (h : isDigit c = true ∨ c = 46 ∨ c = 0) : lower c ≠ 120 := by
  rcases h with h | h | h
  · simp only [isDigit, Bool.and_eq_true, decide_eq_true_eq] at h
    obtain ⟨h1, h2⟩ := h
    interval_cases c <;> decide
  · subst h; decide
  · subst h; decide

/-- `readFloat` on a text whose digit loop runs to the end of the input
without underscores and without a base prefix: the result is read off the
state of the loop. -/
theorem readFloat_of_readMantissa (c0 : Nat) (tl : GoString) (st : MantState)
    (hnothex : ¬ (2 < (if c0 = 43 ∨ c0 = 45 then tl else c0 :: tl).length ∧
      (if c0 = 43 ∨ c0 = 45 then tl else c0 :: tl).getD 0 0 = 48 ∧
      lower ((if c0 = 43 ∨ c0 = 45 then tl else c0 :: tl).getD 1 0) = 120))
    (hrm : readMantissa false (if c0 = 43 ∨ c0 = 45 then tl else c0 :: tl)
      ⟨0, 0, 0, false, false, false⟩ = (st, []))
    (hd : st.sawdigits = true) (hu : st.underscores = false) :
    readFloat (c0 :: tl) =
      some ⟨st.mantissa,
        if st.mantissa ≠ 0 then (if st.sawdot then st.dp else (st.nd : Int)) - (st.nd : Int) else 0,
        decide (c0 = 45), false, []⟩ := by
  unfold readFloat
  simp only [List.tail_cons, hnothex, decide_False, Bool.false_eq_true, if_false, hrm, hd,
    not_true_eq_false, hu, false_and]

/-- The digit loop of `readFloat` over digits, a point and digits. -/
theorem readMantissa_fixed (I F : GoString) (hI : ∀ c ∈ I, isDigit c = true) (hIne : I ≠ [])
    (hF : ∀ c ∈ F, isDigit c = true) :
    ∃ st : MantState,
      readMantissa false (I ++ 46 :: F) ⟨0, 0, 0, false, false, false⟩ = (st, []) ∧
      st.mantissa = decimalValue I * 10 ^ F.length + decimalValue F ∧
      st.dp - (st.nd : Int) = -(F.length : Int) ∧
      st.sawdot = true ∧ st.underscores = false ∧ st.sawdigits = true := by
  obtain ⟨st1, h1, h2, -, h4, h5, h6, h7⟩ :=
    readMantissa_digits (46 :: F) I ⟨0, 0, 0, false, false, false⟩ hI (fun _ => rfl)
  simp only at h2 h4 h5 h6
  have hdot : readMantissa false (46 :: F) st1 =
      readMantissa false (F ++ []) { st1 with sawdot := true, dp := st1.nd } := by
    conv_lhs => unfold readMantissa
    rw [if_neg (by decide), if_pos rfl, if_neg (by rw [h4]; exact Bool.false_ne_true),
      List.append_nil]
  obtain ⟨st2, g1, g2, g3, g4, g5, g6, -⟩ :=
    readMantissa_digits [] F { st1 with sawdot := true, dp := st1.nd } hF h7
  simp only at g2 g3 g4 g5 g6
  refine ⟨st2, ?_, ?_, ?_, g4, by rw [g5, h5], g6 (Or.inl (h6 (Or.inr hIne)))⟩
  · rw [h1, hdot, g1]
    rfl
  · rw [g2, h2]
    simp
  · rw [g3]
    simp

/-- `readFloat` on a numeral in fixed notation: an optional minus sign,
digits, a point, digits. -/
theorem readFloat_fixed (neg : Bool) (I F : GoString) (hI : ∀ c ∈ I, isDigit c = true)
    (hIne : I ≠ []) (hF : ∀ c ∈ F, isDigit c = true) :
    readFloat ((if neg then [45] else []) ++ (I ++ 46 :: F)) =
      some ⟨decimalValue I * 10 ^ F.length + decimalValue F,
        if decimalValue I * 10 ^ F.length + decimalValue F ≠ 0 then -(F.length : Int) else 0,
        neg, false, []⟩ := by
  obtain ⟨st, hrm, hm, hdp, hdot, hu, hd⟩ := readMantissa_fixed I F hI hIne hF
  -- every byte of the digits-point-digits part is a digit or the point
  have hbytes : ∀ c ∈ I ++ 46 :: F, isDigit c = true ∨ c = 46 := by
    intro c hc
    rcases List.mem_append.mp hc with h | h
    · exact Or.inl (hI c h)
    · rcases List.mem_cons.mp h with h | h
      · exact Or.inr h
      · exact Or.inl (hF c h)
  have hget : ∀ k, isDigit ((I ++ 46 :: F).getD k 0) = true ∨ (I ++ 46 :: F).getD k 0 = 46 ∨
      (I ++ 46 :: F).getD k 0 = 0 := by
    intro k
    by_cases hk : k < (I ++ 46 :: F).length
    · have hmem : (I ++ 46 :: F).getD k 0 ∈ I ++ 46 :: F := by
        rw [List.getD_eq_getElem _ _ hk]
        exact List.getElem_mem _
      rcases hbytes _ hmem with h | h
      · exact Or.inl h
      · exact Or.inr (Or.inl h)
    · right; right
      rw [List.getD_eq_default _ _ (by omega)]
  have hnx : ¬ (2 < (I ++ 46 :: F).length ∧ (I ++ 46 :: F).getD 0 0 = 48 ∧
      lower ((I ++ 46 :: F).getD 1 0) = 120) := fun h => lower_ne_x _ (hget 1) h.2.2
  have hexp : (if st.mantissa ≠ 0 then (if st.sawdot then st.dp else (st.nd : Int)) - (st.nd : Int)
      else 0) = if decimalValue I * 10 ^ F.length + decimalValue F ≠ 0 then -(F.length : Int)
      else 0 := by
    rw [hdot, hm]
    simp only [if_true, hdp]
  cases neg with
  | true =>
    have key := readFloat_of_readMantissa 45 (I ++ 46 :: F) st
      (by simpa using hnx) (by simpa using hrm) hd hu
    simp only [if_true, List.singleton_append]
    rw [key, hexp, hm]
    simp
  | false =>
    obtain ⟨d, I', hcons⟩ := List.exists_cons_of_ne_nil hIne
    have hd0 : isDigit d = true := hI d (by rw [hcons]; exact List.mem_cons_self d I')
    have h43 : d ≠ 43 := by intro h; subst h; exact absurd hd0 (by decide)
    have h45 : d ≠ 45 := by intro h; subst h; exact absurd hd0 (by decide)
    have hs : I ++ 46 :: F = d :: (I' ++ 46 :: F) := by rw [hcons]; rfl
    have key := readFloat_of_readMantissa d (I' ++ 46 :: F) st
      (by simpa [h43, h45, ← hs] using hnx) (by simpa [h43, h45, ← hs] using hrm) hd hu
    simp only [Bool.false_eq_true, if_false, List.nil_append]
    rw [hs, key, hexp, hm]
    simp [h45]

/-- The six fraction digits of `%f` are decimal digits. -/
theorem pad6_digits (n : Nat) : ∀ c ∈ pad6 n, isDigit c = true := by
  intro c hc
  unfold pad6 at hc
  rcases List.mem_append.mp hc with h | h
  · rw [(List.mem_replicate.mp h).2]
    decide
  · exact fmtNat_digits n c h

/-- What `%f` writes for a finite value reads back as the number of
millionths it was made from. -/
theorem denotes_fmtF_fin (neg : Bool) (mag : Nat) :
    denotes (fmtF (.fin neg mag)) =
      some ((if neg then -1 else 1) * (millionths mag : ℚ) / 10 ^ 6) := by
  have hrf := readFloat_fixed neg (fmtNat (millionths mag / 10 ^ 6))
    (pad6 (millionths mag % 10 ^ 6)) (fmtNat_digits _) (fmtNat_ne_nil _) (pad6_digits _)
  rw [decimalValue_fmtNat, decimalValue_pad6, pad6_length _ (Nat.mod_lt _ (by positivity)),
    Nat.div_add_mod'] at hrf
  have hshape : fmtF (.fin neg mag) = (if neg then [45] else []) ++
      (fmtNat (millionths mag / 10 ^ 6) ++ 46 :: pad6 (millionths mag % 10 ^ 6)) := by
    simp [fmtF]
  rw [hshape]
  unfold denotes
  rw [hrf]
  simp only [if_true, ReadFloat.value, Bool.false_eq_true, if_false]
  by_cases hq : millionths mag = 0
  · simp [hq]
  · rw [if_pos hq]
    congr 1
    have : ((10 : ℚ) ^ (-((6 : ℕ) : ℤ))) = 1 / 10 ^ 6 := by
      rw [zpow_neg, zpow_natCast]; simp
    rw [this]
    ring
/-! ## How far rounding moves a number -/

/-- Rounding to 24 significant bits: the result is within half a grid step
`w` of the number, and the grid step is at most the larger of one unit and
`2^-23` times the number. -/
theorem float32.roundUnits_error (N D : Nat) (hD : 0 < D) :
    ∃ w : Nat, 2 * (float32.roundUnits N D * D) ≤ 2 * N + w ∧
      2 * N ≤ 2 * (float32.roundUnits N D * D) + w ∧
      (2 ^ 23 * w ≤ 2 ^ 23 * D ∨ 2 ^ 23 * w ≤ N) := by
  unfold float32.roundUnits
  dsimp only
  generalize hu : float32.log2 (N / D) - 23 = u
  have hpos : 0 < D * 2 ^ u := Nat.mul_pos hD (by positivity)
  have herr := float32.roundHalfEven_error N (D * 2 ^ u) hpos
  have hassoc : float32.roundHalfEven N (D * 2 ^ u) * 2 ^ u * D =
      float32.roundHalfEven N (D * 2 ^ u) * (D * 2 ^ u) := by ring
  refine ⟨D * 2 ^ u, by rw [hassoc]; exact herr.1, by rw [hassoc]; exact herr.2, ?_⟩
  by_cases h0 : u = 0
  · left
    subst h0
    simp
  · right
    have hlog : float32.log2 (N / D) = u + 23 := by omega
    have hne : N / D ≠ 0 := by
      intro h
      rw [h] at hlog
      have : float32.log2 0 = 0 := by rfl
      omega
    have hspec := (float32.log2_spec (N / D) hne).1
    rw [hlog] at hspec
    have hmul : 2 ^ (u + 23) * D ≤ N := (Nat.le_div_iff_mul_le hD).mp hspec
    calc 2 ^ 23 * (D * 2 ^ u) = 2 ^ (u + 23) * D := by rw [pow_add]; ring
      _ ≤ N := hmul

/-- The same over the rationals: rounding `N / D` units to 24 significant
bits moves it by at most the larger of half a unit and `2^-24` times
itself. -/
theorem float32.roundUnits_error_rat (N D : Nat) (hD : 0 < D) :
    |(float32.roundUnits N D : ℚ) - (N : ℚ) / D| ≤ max (1 / 2) ((N : ℚ) / D / 2 ^ 24) := by
  obtain ⟨w, h1, h2, h3⟩ := float32.roundUnits_error N D hD
  have hd : (0 : ℚ) < D := by exact_mod_cast hD
  have q1 : 2 * ((float32.roundUnits N D : ℚ) * D) ≤ 2 * N + w := by exact_mod_cast h1
  have q2 : 2 * (N : ℚ) ≤ 2 * ((float32.roundUnits N D : ℚ) * D) + w := by exact_mod_cast h2
  generalize (float32.roundUnits N D : ℚ) = r at q1 q2 ⊢
  have hx : (N : ℚ) / D * D = N := div_mul_cancel₀ _ (ne_of_gt hd)
  generalize hxdef : (N : ℚ) / D = x at hx ⊢
  rw [← hx] at q1 q2
  have h2D : (0 : ℚ) < 2 * D := by linarith
  have q3 : (2 : ℚ) ^ 23 * w ≤ 2 ^ 23 * D ∨ (2 : ℚ) ^ 23 * w ≤ x * D := by
    rcases h3 with h | h
    · left; exact_mod_cast h
    · right; rw [hx]; exact_mod_cast h
  rcases q3 with h | h
  · refine le_trans ?_ (le_max_left _ _)
    have hw : (w : ℚ) ≤ D := by
      have := (mul_le_mul_left (by positivity : (0 : ℚ) < 2 ^ 23)).mp h
      exact this
    rw [abs_le]
    constructor
    · have e : (-(1 / 2 : ℚ)) * (2 * D) ≤ (r - x) * (2 * D) := by linarith
      exact le_of_mul_le_mul_right e h2D
    · have e : (r - x) * (2 * D) ≤ (1 / 2 : ℚ) * (2 * D) := by linarith
      exact le_of_mul_le_mul_right e h2D
  · refine le_trans ?_ (le_max_right _ _)
    have hw : (w : ℚ) ≤ x / 2 ^ 24 * (2 * D) := by
      have e : x / 2 ^ 24 * (2 * D) = x * D / 2 ^ 23 := by
        field_simp
        ring
      rw [e, le_div_iff₀ (by positivity)]
      linarith
    rw [abs_le]
    constructor
    · have e : (-(x / 2 ^ 24)) * (2 * D) ≤ (r - x) * (2 * D) := by linarith
      exact le_of_mul_le_mul_right e h2D
    · have e : (r - x) * (2 * D) ≤ x / 2 ^ 24 * (2 * D) := by linarith
      exact le_of_mul_le_mul_right e h2D

/-- A power with a non-negative integer exponent, as a natural number. -/
theorem cast_pow_toNat (a : Nat) (k : Int) (hk : 0 ≤ k) :
    ((a ^ k.toNat : Nat) : ℚ) = (a : ℚ) ^ k := by
  rw [Nat.cast_pow, ← zpow_natCast, Int.toNat_of_nonneg hk]

/-- The magnitude `ParseFloat` computes for a numeral is the rounding of
the numeral's magnitude: the two differ by at most the larger of `2^-150`
and `2^-24` times the numeral's magnitude. -/
theorem ReadFloat.magnitude_error (r : ReadFloat) :
    abs ((r.magnitude : ℚ) / 2 ^ 149 - abs r.value) ≤
      max (1 / 2 ^ 150) (abs r.value / 2 ^ 24) := by
  -- the magnitude of the numeral
  have hbase : (0 : ℚ) < (if r.hex then 2 else 10) := by split <;> norm_num
  have hsign : abs (if r.neg then (-1 : ℚ) else 1) = 1 := by split <;> simp
  have habs : abs r.value = (r.mantissa : ℚ) * (if r.hex then 2 else 10) ^ r.exp := by
    unfold ReadFloat.value
    rw [abs_mul, abs_mul, abs_of_nonneg (zpow_nonneg (le_of_lt hbase) _), Nat.abs_cast, hsign,
      one_mul]
  -- the magnitude is `roundUnits N D` with `N / D` the numeral in units of 2^-149
  have hND : ∃ N D : Nat, 0 < D ∧ r.magnitude = float32.roundUnits N D ∧
      (N : ℚ) / D = abs r.value * 2 ^ 149 := by
    rw [habs]
    unfold ReadFloat.magnitude roundScaled
    by_cases hhex : r.hex = true
    · simp only [hhex, if_true]
      by_cases he : 0 ≤ r.exp + 149
      · refine ⟨r.mantissa * 2 ^ (r.exp + 149).toNat, 1, Nat.one_pos, by rw [if_pos he], ?_⟩
        rw [Nat.cast_mul, cast_pow_toNat 2 _ he, zpow_add₀ (by norm_num)]
        simp only [Nat.cast_ofNat, Nat.cast_one, div_one, zpow_natCast]
        ring
      · refine ⟨r.mantissa, 2 ^ (-(r.exp + 149)).toNat, by positivity, by rw [if_neg he], ?_⟩
        rw [cast_pow_toNat 2 _ (by omega), zpow_neg, zpow_add₀ (by norm_num)]
        simp only [Nat.cast_ofNat, zpow_natCast, div_inv_eq_mul]
        ring
    · simp only [hhex, Bool.false_eq_true, if_false]
      by_cases he : 0 ≤ r.exp
      · refine ⟨r.mantissa * 10 ^ r.exp.toNat * 2 ^ 149, 1, Nat.one_pos, by rw [if_pos he], ?_⟩
        rw [Nat.cast_mul, Nat.cast_mul, cast_pow_toNat 10 _ he]
        simp only [Nat.cast_pow, Nat.cast_ofNat, Nat.cast_one, div_one]
      · refine ⟨r.mantissa * 2 ^ 149, 10 ^ (-r.exp).toNat, by positivity, by rw [if_neg he], ?_⟩
        rw [cast_pow_toNat 10 _ (by omega), zpow_neg]
        simp only [Nat.cast_mul, Nat.cast_pow, Nat.cast_ofNat, div_inv_eq_mul]
        ring
  obtain ⟨N, D, hD, hmag, hval⟩ := hND
  have herr := float32.roundUnits_error_rat N D hD
  rw [← hmag, hval] at herr
  have hpow : (0 : ℚ) < 2 ^ 149 := by positivity
  have e1 : (r.magnitude : ℚ) / 2 ^ 149 - abs r.value =
      ((r.magnitude : ℚ) - abs r.value * 2 ^ 149) / 2 ^ 149 := by
    rw [sub_div, mul_div_assoc, div_self (ne_of_gt hpow), mul_one]
  rw [e1, abs_div, abs_of_pos hpow, div_le_iff₀ hpow]
  refine le_trans herr (le_of_eq ?_)
  rw [max_mul_of_nonneg _ _ (le_of_lt hpow)]
  have e150 : (2 : ℚ) ^ 150 = 2 ^ 149 * 2 := by rw [← pow_succ]
  have a1 : (1 : ℚ) / 2 ^ 150 * 2 ^ 149 = 1 / 2 := by
    rw [e150, one_div, mul_inv, mul_comm (2 ^ 149)⁻¹, mul_assoc, inv_mul_cancel₀ (ne_of_gt hpow),
      mul_one, one_div]
  have a2 : abs r.value / 2 ^ 24 * 2 ^ 149 = abs r.value * 2 ^ 149 / 2 ^ 24 := by ring
  rw [a1, a2]

/-- Rounding to six fraction digits moves a finite value by at most half a
millionth. -/
theorem millionths_error (mag : Nat) :
    |(millionths mag : ℚ) / 10 ^ 6 - (mag : ℚ) / 2 ^ 149| ≤ 1 / (2 * 10 ^ 6) := by
  obtain ⟨h1, h2⟩ := float32.roundHalfEven_error (mag * 10 ^ 6) (2 ^ 149) (by positivity)
  have q1 : 2 * ((millionths mag : ℚ) * 2 ^ 149) ≤ 2 * ((mag : ℚ) * 10 ^ 6) + 2 ^ 149 := by
    unfold millionths
    exact_mod_cast h1
  have q2 : 2 * ((mag : ℚ) * 10 ^ 6) ≤ 2 * ((millionths mag : ℚ) * 2 ^ 149) + 2 ^ 149 := by
    unfold millionths
    exact_mod_cast h2
  generalize (millionths mag : ℚ) = q at q1 q2 ⊢
  generalize (mag : ℚ) = m at q1 q2 ⊢
  have hpos : (0 : ℚ) < 2 * 10 ^ 6 * 2 ^ 149 := by positivity
  rw [abs_le]
  constructor
  · have e : (-(1 / (2 * 10 ^ 6) : ℚ)) * (2 * 10 ^ 6 * 2 ^ 149) ≤
        (q / 10 ^ 6 - m / 2 ^ 149) * (2 * 10 ^ 6 * 2 ^ 149) := by
      have l : (-(1 / (2 * 10 ^ 6) : ℚ)) * (2 * 10 ^ 6 * 2 ^ 149) = -(2 ^ 149) := by
        rw [neg_mul, ← mul_assoc, one_div, inv_mul_cancel₀ (by positivity), one_mul]
      have rr : (q / 10 ^ 6 - m / 2 ^ 149) * (2 * 10 ^ 6 * 2 ^ 149) =
          2 * (q * 2 ^ 149) - 2 * (m * 10 ^ 6) := by field_simp; ring
      rw [l, rr]
      linarith
    exact le_of_mul_le_mul_right e hpos
  · have e : (q / 10 ^ 6 - m / 2 ^ 149) * (2 * 10 ^ 6 * 2 ^ 149) ≤
        (1 / (2 * 10 ^ 6) : ℚ) * (2 * 10 ^ 6 * 2 ^ 149) := by
      have l : ((1 / (2 * 10 ^ 6) : ℚ)) * (2 * 10 ^ 6 * 2 ^ 149) = 2 ^ 149 := by
        rw [← mul_assoc, one_div, inv_mul_cancel₀ (by positivity), one_mul]
      have rr : (q / 10 ^ 6 - m / 2 ^ 149) * (2 * 10 ^ 6 * 2 ^ 149) =
          2 * (q * 2 ^ 149) - 2 * (m * 10 ^ 6) := by field_simp; ring
      rw [l, rr]
      linarith
    exact le_of_mul_le_mul_right e hpos
/-! ## The fields of a rendered position -/

theorem lit_comma : lit "," = [44] := by rfl

/-- A field without a comma is cut off at the comma that follows it. -/
theorem stringsIndex_comma (rest : GoString) :
    ∀ t : GoString, 44 ∉ t → stringsIndex [44] (t ++ 44 :: rest) = some t.length := by
  intro t
  induction t with
  | nil => intro _; simp [stringsIndex, List.isPrefixOf]
  | cons a t ih =>
    intro h
    have ha : a ≠ 44 := fun e => h (by rw [e]; exact List.mem_cons_self 44 t)
    have ht : 44 ∉ t := fun e => h (List.mem_cons_of_mem a e)
    rw [List.cons_append]
    unfold stringsIndex
    have hnp : ([44] : GoString).isPrefixOf (a :: (t ++ 44 :: rest)) = false := by
      simp [List.isPrefixOf, Ne.symm ha]
    rw [hnp, ih ht]
    simp

/-- A text without a comma contains no separator. -/
theorem stringsIndex_comma_none : ∀ t : GoString, 44 ∉ t → stringsIndex [44] t = none := by
  intro t
  induction t with
  | nil => intro _; rfl
  | cons a t ih =>
    intro h
    have ha : a ≠ 44 := fun e => h (by rw [e]; exact List.mem_cons_self 44 t)
    have ht : 44 ∉ t := fun e => h (List.mem_cons_of_mem a e)
    unfold stringsIndex
    have hnp : ([44] : GoString).isPrefixOf (a :: t) = false := by
      simp [List.isPrefixOf, Ne.symm ha]
    rw [hnp, ih ht]
    simp

/-- The split of a field followed by a comma and a rest. -/
theorem stringsSplit_comma (t rest : GoString) (h : 44 ∉ t) :
    stringsSplit (t ++ 44 :: rest) [44] = t :: stringsSplit rest [44] := by
  unfold stringsSplit
  have hlen : (t ++ 44 :: rest).length = (t.length + rest.length) + 1 := by
    simp only [List.length_append, List.length_cons]
    omega
  rw [hlen]
  conv_lhs => unfold genSplit
  rw [stringsIndex_comma rest t h]
  simp only [List.length_cons, List.length_nil]
  have htake : (t ++ 44 :: rest).take t.length = t := List.take_left' rfl
  have hdrop : (t ++ 44 :: rest).drop (t.length + (0 + 1)) = rest := by
    have : t ++ 44 :: rest = (t ++ [44]) ++ rest := by simp
    rw [this]
    exact List.drop_left' (by simp)
  rw [htake, hdrop]
  rw [genSplit_bound_irrelevant [44] (List.cons_ne_nil _ _) (t.length + rest.length)
    rest.length rest (by omega) (Nat.le_refl _)]

/-- The split of a last field. -/
theorem stringsSplit_comma_last (t : GoString) (h : 44 ∉ t) : stringsSplit t [44] = [t] := by
  unfold stringsSplit
  exact genSplit_of_index_none [44] _ t (stringsIndex_comma_none t h)

/-- What `%f` writes contains no comma. -/
theorem fmtF_no_comma (v : float32) : 44 ∉ fmtF v := by
  intro h
  cases v with
  | nan => exact absurd h (by decide)
  | inf neg => cases neg <;> exact absurd h (by decide)
  | fin neg mag =>
    simp only [fmtF, List.mem_append, List.mem_singleton] at h
    rcases h with ((h | h) | h) | h
    · cases neg
      · simp at h
      · simp at h
    · exact absurd (fmtNat_digits _ 44 h) (by decide)
    · exact absurd h (by decide)
    · exact absurd (pad6_digits _ 44 h) (by decide)

/-- The six fields of the text `String` produces are the six values as `%f`
writes them. -/
theorem positionFields_String (p : Position) :
    positionFields p.String =
      [fmtF (p.Values 0), fmtF (p.Values 1), fmtF (p.Values 2), fmtF (p.Values 3),
        fmtF (p.Values 4), fmtF (p.Values 5)] := by
  unfold positionFields Position.String
  rw [lit_comma]
  simp only [List.append_assoc, List.singleton_append, List.cons_append, List.nil_append]
  rw [stringsSplit_comma _ _ (fmtF_no_comma _), stringsSplit_comma _ _ (fmtF_no_comma _),
    stringsSplit_comma _ _ (fmtF_no_comma _), stringsSplit_comma _ _ (fmtF_no_comma _),
    stringsSplit_comma _ _ (fmtF_no_comma _), stringsSplit_comma_last _ (fmtF_no_comma _)]

/-! ## What `ParseFloat` returns for a valid field -/

/-- `special` returns NaN or an infinity. -/
theorem special_not_fin (s : GoString) (v : float32) (n : Nat) (h : special s = some (v, n)) :
    ∀ neg mag, v ≠ .fin neg mag := by
  intro neg mag hv
  subst hv
  unfold special at h
  cases s with
  | nil => cases h
  | cons c rest =>
    simp only at h
    unfold specialInf at h
    split_ifs at h <;> simp at h

/-- A valid field with a finite value is a numeral read to its end: the
value has the numeral's sign and the rounded magnitude. -/
theorem ParseFloat32_fin (s : GoString) (neg : Bool) (mag : Nat)
    (hok : (ParseFloat32 s).2 = none) (hv : (ParseFloat32 s).1 = .fin neg mag) :
    ∃ r : ReadFloat, readFloat s = some r ∧ r.rest = [] ∧ r.neg = neg ∧ r.magnitude = mag := by
  unfold ParseFloat32 at hok hv
  cases hsp : special s with
  | some vn =>
    obtain ⟨v, n⟩ := vn
    rw [hsp] at hok hv
    simp only at hok hv
    by_cases hn : n ≠ s.length
    · rw [if_pos hn] at hok
      exact Option.noConfusion hok
    · rw [if_neg hn] at hv
      exact absurd hv (special_not_fin s v n hsp neg mag)
  | none =>
    rw [hsp] at hok hv
    simp only at hok hv
    cases hrf : readFloat s with
    | none => rw [hrf] at hok; simp at hok
    | some r =>
      rw [hrf] at hok hv
      simp only at hok hv
      by_cases h1 : r.rest ≠ []
      · rw [if_pos h1] at hok
        exact Option.noConfusion hok
      · rw [if_neg h1] at hok hv
        by_cases h2 : r.magnitude ≥ float32.overflowMag
        · rw [if_pos h2] at hok
          exact Option.noConfusion hok
        · rw [if_neg h2] at hv
          simp only [float32.fin.injEq] at hv
          exact ⟨r, rfl, not_not.mp h1, hv.1, hv.2⟩
/-! ## Parse followed by String, field by field -/

/-- The sign factor of a number has absolute value one. -/
theorem abs_sign (neg : Bool) : abs (if neg then (-1 : ℚ) else 1) = 1 := by
  cases neg <;> simp

/-- The magnitude of the number a numeral denotes. -/
theorem ReadFloat.value_eq (r : ReadFloat) :
    r.value = (if r.neg then (-1 : ℚ) else 1) * abs r.value := by
  have hbase : (0 : ℚ) < (if r.hex then 2 else 10) := by split <;> norm_num
  have habs : abs r.value = (r.mantissa : ℚ) * (if r.hex then 2 else 10) ^ r.exp := by
    unfold ReadFloat.value
    rw [abs_mul, abs_mul, abs_of_nonneg (zpow_nonneg (le_of_lt hbase) _), Nat.abs_cast,
      abs_sign, one_mul]
  rw [habs]
  unfold ReadFloat.value
  ring

/-- C8 (amended): for every string of six comma-separated valid float
fields, `Parse` succeeds and `String` produces a text of six
comma-separated fields, the six parsed `float32` values as `%f` writes them.
A field that reads as NaN or as an infinity comes back as "NaN", "+Inf" or
"-Inf". Every other field is a numeral denoting a number `x` and comes back
as a numeral in fixed notation with exactly six fraction digits denoting a
number `y`, where the parsed `float32` value is within
`max(2^-150, |x| * 2^-24)` of `x`, `y` is within `0.5 * 10^-6` of the
`float32` value, and so `|y - x| ≤ 0.5 * 10^-6 + max(2^-150, |x| * 2^-24)`;
`y` is in general not equal to `x`. -/
theorem C8_Parse_then_String (p : Position) (str : GoString)
    (h6 : (positionFields str).length = 6) (hvalid : ∀ i, validField str i) :
    (p.Parse str).2 = none ∧
      positionFields (p.Parse str).1.String =
        [fmtF (fieldValue str 0), fmtF (fieldValue str 1), fmtF (fieldValue str 2),
          fmtF (fieldValue str 3), fmtF (fieldValue str 4), fmtF (fieldValue str 5)] ∧
      ∀ i : Fin 6,
        (fieldValue str i = .nan →
          (positionFields (p.Parse str).1.String).getD i.val [] = lit "NaN") ∧
        (fieldValue str i = .inf false →
          (positionFields (p.Parse str).1.String).getD i.val [] = lit "+Inf") ∧
        (fieldValue str i = .inf true →
          (positionFields (p.Parse str).1.String).getD i.val [] = lit "-Inf") ∧
        (∀ neg mag, fieldValue str i = .fin neg mag →
          ∃ (x y : ℚ) (q : Nat),
            denotes ((positionFields str).getD i.val []) = some x ∧
            denotes ((positionFields (p.Parse str).1.String).getD i.val []) = some y ∧
            (positionFields (p.Parse str).1.String).getD i.val [] =
              (if neg then [45] else []) ++ fmtNat (q / 10 ^ 6) ++ [46] ++ pad6 (q % 10 ^ 6) ∧
            (pad6 (q % 10 ^ 6)).length = 6 ∧
            y = (if neg then -1 else 1) * (q : ℚ) / 10 ^ 6 ∧
            abs ((fieldValue str i).toRat - x) ≤ max (1 / 2 ^ 150) (abs x / 2 ^ 24) ∧
            abs (y - (fieldValue str i).toRat) ≤ 1 / (2 * 10 ^ 6) ∧
            abs (y - x) ≤ 1 / (2 * 10 ^ 6) + max (1 / 2 ^ 150) (abs x / 2 ^ 24)) := by
  have hparse := Position.Parse_ok p str h6 hvalid
  have hfields : positionFields (p.Parse str).1.String =
      [fmtF (fieldValue str 0), fmtF (fieldValue str 1), fmtF (fieldValue str 2),
        fmtF (fieldValue str 3), fmtF (fieldValue str 4), fmtF (fieldValue str 5)] := by
    rw [positionFields_String, hparse.2 0, hparse.2 1, hparse.2 2, hparse.2 3, hparse.2 4,
      hparse.2 5]
  have hout : ∀ i : Fin 6,
      (positionFields (p.Parse str).1.String).getD i.val [] = fmtF (fieldValue str i) := by
    intro i
    rw [hfields]
    fin_cases i <;> rfl
  refine ⟨hparse.1, hfields, fun i => ⟨?_, ?_, ?_, ?_⟩⟩
  · intro hv
    rw [hout i, hv]
    rfl
  · intro hv
    rw [hout i, hv]
    rfl
  · intro hv
    rw [hout i, hv]
    rfl
  · intro neg mag hv
    have hvalid_i : (ParseFloat32 ((positionFields str).getD i.val [])).2 = none := hvalid i
    have hv' : (ParseFloat32 ((positionFields str).getD i.val [])).1 = .fin neg mag := hv
    obtain ⟨r, hrf, hrest, hneg, hmag⟩ := ParseFloat32_fin _ neg mag hvalid_i hv'
    have hx : denotes ((positionFields str).getD i.val []) = some r.value := by
      unfold denotes
      rw [hrf]
      simp only [hrest, if_true]
    have hy := denotes_fmtF_fin neg mag
    have hshape : fmtF (.fin neg mag) = (if neg then [45] else []) ++
        fmtNat (millionths mag / 10 ^ 6) ++ [46] ++ pad6 (millionths mag % 10 ^ 6) := rfl
    -- the three numbers, with their common sign taken out
    have ht : (float32.fin neg mag).toRat =
        (if neg then (-1 : ℚ) else 1) * ((mag : ℚ) / 2 ^ 149) := by
      show (if neg then (-1 : ℚ) else 1) * (mag : ℚ) / 2 ^ 149 = _
      rw [mul_div_assoc]
    have hxs : r.value = (if neg then (-1 : ℚ) else 1) * abs r.value := by
      have := ReadFloat.value_eq r
      rw [hneg] at this
      exact this
    have hys : (if neg then (-1 : ℚ) else 1) * (millionths mag : ℚ) / 10 ^ 6 =
        (if neg then (-1 : ℚ) else 1) * ((millionths mag : ℚ) / 10 ^ 6) := by
      rw [mul_div_assoc]
    have hmagerr := ReadFloat.magnitude_error r
    rw [hmag] at hmagerr
    have b1 : abs ((float32.fin neg mag).toRat - r.value) ≤
        max (1 / 2 ^ 150) (abs r.value / 2 ^ 24) := by
      rw [ht]
      conv_lhs => rw [hxs]
      rw [← mul_sub, abs_mul, abs_sign, one_mul]
      exact hmagerr
    have b2 : abs ((if neg then (-1 : ℚ) else 1) * (millionths mag : ℚ) / 10 ^ 6 -
        (float32.fin neg mag).toRat) ≤ 1 / (2 * 10 ^ 6) := by
      rw [ht, hys, ← mul_sub, abs_mul, abs_sign, one_mul]
      exact millionths_error mag
    refine ⟨r.value, (if neg then (-1 : ℚ) else 1) * (millionths mag : ℚ) / 10 ^ 6,
      millionths mag, hx, ?_, ?_, pad6_length _ (Nat.mod_lt _ (by positivity)), rfl, ?_, ?_, ?_⟩
    · rw [hout i, hv]
      exact hy
    · rw [hout i, hv, hshape]
    · rw [hv]
      exact b1
    · rw [hv]
      exact b2
    · exact le_trans (abs_sub_le _ (float32.fin neg mag).toRat _) (add_le_add b2 b1)

/-- Witness of C8 (amended) at "NaN,Inf,-inf,0.3,123456.789,-16777217",
which comes back as "NaN,+Inf,-Inf,0.300000,123456.789062,-16777216.000000". -/
theorem C8_Parse_then_String_witness :
    (positionFields (lit "NaN,Inf,-inf,0.3,123456.789,-16777217")).length = 6 ∧
      (Position.zero.Parse (lit "NaN,Inf,-inf,0.3,123456.789,-16777217")).2 = none ∧
      positionFields (Position.zero.Parse (lit "NaN,Inf,-inf,0.3,123456.789,-16777217")).1.String =
        [lit "NaN", lit "+Inf", lit "-Inf", lit "0.300000", lit "123456.789062",
          lit "-16777216.000000"] := by
  have h := C8_Parse_then_String Position.zero (lit "NaN,Inf,-inf,0.3,123456.789,-16777217")
    (by rfl)
    ((forall_fin_six _).mpr
      ⟨by decide!, by decide!, by decide!, by decide!, by decide!, by decide!⟩)
  refine ⟨by rfl, h.1, ?_⟩
  rw [h.2.1]
  decide!

/-! ## The requests of a relative move -/

/-- C13: with every request answered, for every answer to the
current-angles query that parses to `c` and every delta `d` such that every
component of `c + d` lies in `[-90, 90]`, the requests of
`MoveAnglesRelative(d)` are exactly three: the current-angles query
"GetActualJointPosDegree()", then one query (type 377) with the message
"GetForwardKin(t)", then one MoveJ command (type 201) with the message
"MoveJ(t,pose,0,0,speed,acc,100,0.000,0.000,0.000,0.000,blendTime,0,0,0,0,0,0,0)",
where `t` is the six components of `c + d` as `%f` writes them, separated
by commas, and `pose` is the answer to the forward-kinematics query as parsed
and written back; each command declares the byte length of its message and
has the identifier drawn for it, reduced modulo 999. -/
theorem C13_MoveAnglesRelative_requests (rc : RobotController) (o : Oracle) (s : Run)
    (d c : Position) (hans : ∀ k, (o.answer k).2 = none)
    (hparse : Position.zero.Parse (o.answer s.issued.length).1 = (c, none))
    (hrange : ∀ i, inRange (float32.add (c.Values i) (d.Values i)) = true) :
    ∃ target pose kin move : GoString,
      target =
          fmtF (float32.add (c.Values 0) (d.Values 0)) ++ lit "," ++
            fmtF (float32.add (c.Values 1) (d.Values 1)) ++ lit "," ++
            fmtF (float32.add (c.Values 2) (d.Values 2)) ++ lit "," ++
            fmtF (float32.add (c.Values 3) (d.Values 3)) ++ lit "," ++
            fmtF (float32.add (c.Values 4) (d.Values 4)) ++ lit "," ++
            fmtF (float32.add (c.Values 5) (d.Values 5)) ∧
        pose = (Position.zero.Parse (o.answer (s.issued.length + 1)).1).1.String ∧
        kin = lit "GetForwardKin(" ++ target ++ lit ")" ∧
        move =
          lit "MoveJ(" ++ target ++ lit "," ++ pose ++ lit ",0,0," ++ fmtF rc.speed ++ lit "," ++
            fmtF rc.acc ++ lit ",100,0.000,0.000,0.000,0.000," ++ fmtF rc.blendTime ++
            lit ",0,0,0,0,0,0,0)" ∧
        (MoveAnglesRelative rc o s d).1.issued =
          s.issued ++
            [⟨((o.draw s.drawn % 999 : Nat) : Int), 377, 25, lit "GetActualJointPosDegree()"⟩,
              ⟨((o.draw (s.drawn + 1) % 999 : Nat) : Int), 377, (kin.length : Int), kin⟩,
              ⟨((o.draw (s.drawn + 2) % 999 : Nat) : Int), 201, (move.length : Int), move⟩] := by
  have hc : (Position.zero.Parse (o.answer s.issued.length).1).1 = c := by rw [hparse]
  have hcheck : JointsAngle.check ⟨c.CalcSum d⟩ = true :=
    JointsAngle.check_of_inRange ⟨c.CalcSum d⟩
      (fun i => by
        show inRange ((c.CalcSum d).Values i) = true
        rw [Position.CalcSum_Values]
        exact hrange i)
  have hstr : (c.CalcSum d).String =
      fmtF (float32.add (c.Values 0) (d.Values 0)) ++ lit "," ++
        fmtF (float32.add (c.Values 1) (d.Values 1)) ++ lit "," ++
        fmtF (float32.add (c.Values 2) (d.Values 2)) ++ lit "," ++
        fmtF (float32.add (c.Values 3) (d.Values 3)) ++ lit "," ++
        fmtF (float32.add (c.Values 4) (d.Values 4)) ++ lit "," ++
        fmtF (float32.add (c.Values 5) (d.Values 5)) := by
    unfold Position.String
    simp only [Position.CalcSum_Values]
    rfl
  refine ⟨_, _, _, _, rfl, rfl, rfl, rfl, ?_⟩
  rw [← hstr, MoveAnglesRelative_of_check rc o s d (hans _) (by rw [hc]; exact hcheck), hc,
    moveTail_answered rc o _ _ _ (hans _) (hans _)]
  dsimp only
  rw [List.append_assoc, List.length_append]
  rfl

/-- Witness of C13: from the current angles `{1,2,3,4,5,6}`, the delta
`{-10,10,0,0,0,0}` gives the target `{-9,12,3,4,5,6}`; from the current
angles `{0,0,0,0,0,0}` it gives the target `{-10,10,0,0,0,0}`. -/
theorem C13_MoveAnglesRelative_requests_witness :
    (MoveAnglesRelative exampleController offsetOracle Run.init
          exampleAngles.toPosition).1.issued =
        [⟨0, 377, 25, lit "GetActualJointPosDegree()"⟩,
          ⟨1, 377, 70,
            lit "GetForwardKin(-9.000000,12.000000,3.000000,4.000000,5.000000,6.000000)"⟩,
          ⟨2, 201, 196,
            lit "MoveJ(-9.000000,12.000000,3.000000,4.000000,5.000000,6.000000,7.000000,8.000000,9.000000,10.000000,11.000000,12.000000,0,0,100.000000,100.000000,100,0.000,0.000,0.000,0.000,0.000000,0,0,0,0,0,0,0)"⟩] ∧
      (MoveAnglesRelative exampleController exampleOracle Run.init
          exampleAngles.toPosition).1.issued =
        [⟨0, 377, 25, lit "GetActualJointPosDegree()"⟩,
          ⟨1, 377, 71,
            lit "GetForwardKin(-10.000000,10.000000,0.000000,0.000000,0.000000,0.000000)"⟩,
          ⟨2, 201, 194,
            lit "MoveJ(-10.000000,10.000000,0.000000,0.000000,0.000000,0.000000,1.000000,2.000000,3.000000,4.000000,5.000000,6.000000,0,0,100.000000,100.000000,100,0.000,0.000,0.000,0.000,0.000000,0,0,0,0,0,0,0)"⟩] := by
  constructor
  · obtain ⟨t, p, k, m, ht, hp, hk, hm, h⟩ :=
      C13_MoveAnglesRelative_requests exampleController offsetOracle Run.init
        exampleAngles.toPosition (Position.zero.Parse (lit "1,2,3,4,5,6")).1
        (by intro k; unfold offsetOracle; dsimp only; split_ifs <;> rfl)
        (by
          have h2 : (Position.zero.Parse (lit "1,2,3,4,5,6")).2 = none := by decide!
          show Position.zero.Parse (lit "1,2,3,4,5,6") = _
          generalize Position.zero.Parse (lit "1,2,3,4,5,6") = parsed at h2 ⊢
          obtain ⟨a, b⟩ := parsed
          simp only at h2
          subst h2
          rfl)
        (by decide!)
    rw [hk, hm, hp, ht] at h
    exact h.trans (by decide!)
  · obtain ⟨t, p, k, m, ht, hp, hk, hm, h⟩ :=
      C13_MoveAnglesRelative_requests exampleController exampleOracle Run.init
        exampleAngles.toPosition (Position.zero.Parse (lit "0,0,0,0,0,0")).1
        (by intro k; unfold exampleOracle; dsimp only; split_ifs <;> rfl)
        (by
          have h2 : (Position.zero.Parse (lit "0,0,0,0,0,0")).2 = none := by decide!
          show Position.zero.Parse (lit "0,0,0,0,0,0") = _
          generalize Position.zero.Parse (lit "0,0,0,0,0,0") = parsed at h2 ⊢
          obtain ⟨a, b⟩ := parsed
          simp only at h2
          subst h2
          rfl)
        (by decide!)
    rw [hk, hm, hp, ht] at h
    exact h.trans (by decide!)

end Robot
